import Mathlib

/-!
# Verification of the poker hand reconstructor and action-sequence analyzer

Shallow embedding of the core of `poker_advanced_stats.py` (class
`DetailedHandAnalyzer`: `parse_hands_with_actions`, `calculate_advanced_stats`,
`_analyze_preflop_detailed`, `_analyze_postflop_detailed`) and of the dealer
inference of `poker_data.py` (`HandParser.parse_hands`, hand-end branch).

Conventions of the embedding:
* Python strings are Lean `String`s; Python `None`-able strings are
  `Option String`.  Python truthiness of an optional string (`if s:`) is
  `pyTruthy`: `none` and `some ""` are falsy.  Player fields of action
  dictionaries are plain strings (the log regexes only capture non-empty
  names); the analyzer's empty-player guards are modelled as tests
  against `""`.
* Python `set`s of strings are modelled as duplicate-free `List String`
  accumulators (`addMem`); only membership is ever queried.
* The per-player statistics `defaultdict` is a total function
  `Stats := String → Counters` from unified names to a record of counters,
  zero-initialized.
* The only fallible spots of the analyzer are the two
  `unified_players[player]` subscripts (KeyError when a flop/turn actor is
  missing from the hand's player map); the corresponding Lean functions
  return `Option Stats`, `none` meaning the Python exception.
* Timestamps (`row['at']`, `start_time`, `end_time`) are never read by any
  analyzed logic and are omitted from the records; the `prev_action == action`
  break in `_analyze_preflop_detailed` is modelled positionally (see
  `preflopScanGo`), which agrees with dictionary-equality because the first
  raise processed is the earliest raise in the list.
* Python `round(x, 1)` on floats is modelled as exact rational rounding
  `round1`; the claims proved about it (monotonicity, range) are insensitive
  to the float/rational and tie-breaking differences.
-/

namespace PPP

/-- Action kinds recorded by `parse_hands_with_actions`
(`info['type'] in ['small_blind', 'big_blind', 'call', 'bet', 'raise',
'check', 'fold']`). -/
inductive AKind where
  | small_blind
  | big_blind
  | call
  | bet
  | raise
  | check
  | fold
  deriving DecidableEq, Repr

/-- One entry of a street's action list:
`{'player': ..., 'action_type': ..., 'amount': ...}`. -/
structure Action where
  player : String
  kind : AKind
  amount : Nat
  deriving DecidableEq, Repr

/-- Value of `current_hand['players'][player]` as built by
`parse_hands_with_actions` (lines 257-263, 302-306). -/
structure PlayerData where
  initial_stack : Nat
  invested : Int
  hole_cards : Option (List String)
  deriving DecidableEq, Repr

/-- A hand record as built by `parse_hands_with_actions` (lines 232-247).
`players` is the insertion-ordered association list behind the Python dict. -/
structure Hand where
  hand_number : Nat
  hand_id : String
  dealer : Option String
  players : List (String × PlayerData)
  board : List String
  pot : Nat
  winner : Option String
  winning_hand : Option String
  preflop_actions : List Action
  flop_actions : List Action
  turn_actions : List Action
  river_actions : List Action
  deriving DecidableEq, Repr

/-- Python truthiness of an optional string: `None` and `''` are falsy. -/
def pyTruthy : Option String → Bool
  | none => false
  | some s => s != ""

/-- Membership of a raw player name among the keys of the `players` dict. -/
def memKeys (players : List (String × PlayerData)) (p : String) : Bool :=
  players.any (fun q => q.1 == p)

/-- `[a['player'] for a in actions]`. -/
def actors (acts : List Action) : List String :=
  acts.map (fun a => a.player)

/-- Add an element to a set-as-list accumulator (Python `set.add`). -/
def addMem (l : List String) (x : String) : List String :=
  if x ∈ l then l else l ++ [x]

/-- The per-player counter record initialised by the `defaultdict` in
`calculate_advanced_stats` (lines 327-356). -/
structure Counters where
  hands_played : Nat
  flop_hands : Nat
  turn_hands : Nat
  vpip_count : Nat
  pfr_count : Nat
  faced_raise_count : Nat
  threebets : Nat
  faced_3bet_count : Nat
  fourbets : Nat
  called_3bet : Nat
  cbet_opportunities : Nat
  cbets_made : Nat
  faced_cbet_count : Nat
  folded_to_cbet : Nat
  turn_cbet_opportunities : Nat
  turn_cbets_made : Nat
  faced_turn_cbet_count : Nat
  folded_to_turn_cbet : Nat
  threebetpot_opportunities : Nat
  cbet_after_3bet_made : Nat
  check_after_3bet_made : Nat
  donk_bet_opportunities : Nat
  donk_bets_made : Nat
  pfr_checked_to_opportunities : Nat
  pfr_checked_to_bets : Nat
  check_raise_opportunities : Nat
  check_raises_made : Nat
  showdown_count : Nat
  deriving DecidableEq, Repr

/-- The zero-initialized counter record. -/
def zeroC : Counters :=
  { hands_played := 0, flop_hands := 0, turn_hands := 0, vpip_count := 0,
    pfr_count := 0, faced_raise_count := 0, threebets := 0,
    faced_3bet_count := 0, fourbets := 0, called_3bet := 0,
    cbet_opportunities := 0, cbets_made := 0, faced_cbet_count := 0,
    folded_to_cbet := 0, turn_cbet_opportunities := 0, turn_cbets_made := 0,
    faced_turn_cbet_count := 0, folded_to_turn_cbet := 0,
    threebetpot_opportunities := 0, cbet_after_3bet_made := 0,
    check_after_3bet_made := 0, donk_bet_opportunities := 0,
    donk_bets_made := 0, pfr_checked_to_opportunities := 0,
    pfr_checked_to_bets := 0, check_raise_opportunities := 0,
    check_raises_made := 0, showdown_count := 0 }

/-- The `player_stats` accumulator: unified name → counters. -/
def Stats : Type := String → Counters

/-- Fresh `defaultdict` state. -/
def zeroStats : Stats := fun _ => zeroC

/-- `player_stats[u] = f(player_stats[u])`. -/
def bump (st : Stats) (u : String) (f : Counters → Counters) : Stats :=
  fun v => if v = u then f (st v) else st v

/-! ## `_analyze_preflop_detailed` (lines 448-538) -/

/-- Local state of the preflop scan (lines 452-462). -/
structure PreScan where
  players_invested : List String
  first_raiser : Option String
  players_facing_raise : List String
  three_bettors : List String
  players_facing_3bet : List String
  four_bettors : List String
  players_called_3bet : List String
  raise_count : Nat
  deriving DecidableEq, Repr

/-- Initial preflop-scan state. -/
def initPreScan : PreScan :=
  { players_invested := [], first_raiser := none, players_facing_raise := [],
    three_bettors := [], players_facing_3bet := [], four_bettors := [],
    players_called_3bet := [], raise_count := 0 }

/-- Lines 484-489: on raise #1, every non-empty player of an action strictly
before the raise who is not the raiser is added to `players_facing_raise`. -/
def prevActorsAdd (pre : List Action) (raiser : String) (s : List String) :
    List String :=
  pre.foldl
    (fun acc a =>
      if a.player ≠ "" ∧ a.player ≠ raiser then addMem acc a.player else acc)
    s

/-- Lines 495-496: `if first_raiser: players_facing_3bet.add(first_raiser)`
(a falsy first raiser adds nothing). -/
def facing3betAdd (fr : Option String) (l : List String) : List String :=
  if pyTruthy fr then
    match fr with
    | some f => addMem l f
    | none => l
  else l

/-- One iteration of the loop at lines 465-512.  `pre` is the list of actions
already processed (used by the raise-#1 back-scan). -/
def preflopStep (pre : List Action) (s : PreScan) (a : Action) : PreScan :=
  if a.player = "" then s
  else
    let s :=
      if a.kind = AKind.call ∨ a.kind = AKind.bet ∨ a.kind = AKind.raise then
        { s with players_invested := addMem s.players_invested a.player }
      else s
    let s :=
      if a.kind = AKind.raise then
        let rc := s.raise_count + 1
        let s := { s with raise_count := rc }
        if rc = 1 then
          { s with first_raiser := some a.player,
                   players_facing_raise :=
                     prevActorsAdd pre a.player s.players_facing_raise }
        else if rc = 2 then
          { s with players_facing_raise :=
                     addMem s.players_facing_raise a.player,
                   three_bettors := addMem s.three_bettors a.player,
                   players_facing_3bet :=
                     facing3betAdd s.first_raiser s.players_facing_3bet }
        else if rc = 3 then
          { s with players_facing_3bet := addMem s.players_facing_3bet a.player,
                   four_bettors := addMem s.four_bettors a.player }
        else
          { s with players_facing_3bet :=
                     addMem s.players_facing_3bet a.player }
      else s
    if a.kind = AKind.call then
      if s.raise_count = 1 then
        { s with players_facing_raise := addMem s.players_facing_raise a.player }
      else if s.raise_count = 2 then
        { s with players_facing_3bet := addMem s.players_facing_3bet a.player,
                 players_called_3bet := addMem s.players_called_3bet a.player }
      else s
    else s

/-- The scan loop, carrying the processed prefix. -/
def preflopScanGo : List Action → List Action → PreScan → PreScan
  | _, [], s => s
  | pre, a :: rest, s => preflopScanGo (pre ++ [a]) rest (preflopStep pre s a)

/-- Full preflop scan of a hand's preflop action list. -/
def preflopScan (acts : List Action) : PreScan :=
  preflopScanGo [] acts initPreScan

/-- Counter increments used by the preflop stats update. -/
def incVpip (c : Counters) : Counters := { c with vpip_count := c.vpip_count + 1 }

/-- `pfr_count += 1`. -/
def incPfr (c : Counters) : Counters := { c with pfr_count := c.pfr_count + 1 }

/-- `faced_raise_count += 1`. -/
def incFacedRaise (c : Counters) : Counters :=
  { c with faced_raise_count := c.faced_raise_count + 1 }

/-- `threebets += 1`. -/
def incThreebets (c : Counters) : Counters :=
  { c with threebets := c.threebets + 1 }

/-- `faced_3bet_count += 1`. -/
def incFaced3bet (c : Counters) : Counters :=
  { c with faced_3bet_count := c.faced_3bet_count + 1 }

/-- `fourbets += 1`. -/
def incFourbets (c : Counters) : Counters :=
  { c with fourbets := c.fourbets + 1 }

/-- `called_3bet += 1`. -/
def incCalled3bet (c : Counters) : Counters :=
  { c with called_3bet := c.called_3bet + 1 }

/-- Body of the update loop at lines 515-538 for one raw player `p`. -/
def creditPreflopOne (ps : PreScan) (unify : String → String) (st : Stats)
    (p : String) : Stats :=
  let u := unify p
  let st := if p ∈ ps.players_invested then bump st u incVpip else st
  let st := if some p = ps.first_raiser then bump st u incPfr else st
  let st :=
    if p ∈ ps.players_facing_raise then
      let st := bump st u incFacedRaise
      if p ∈ ps.three_bettors then bump st u incThreebets else st
    else st
  if p ∈ ps.players_facing_3bet then
    let st := bump st u incFaced3bet
    let st := if p ∈ ps.four_bettors then bump st u incFourbets else st
    if p ∈ ps.players_called_3bet then bump st u incCalled3bet else st
  else st

/-- `_analyze_preflop_detailed` (total: this method cannot raise). -/
def analyzePreflopDetailed (h : Hand) (unify : String → String) (st : Stats) :
    Stats :=
  let ps := preflopScan h.preflop_actions
  (h.players.map Prod.fst).foldl (creditPreflopOne ps unify) st

/-! ## `_analyze_postflop_detailed` (lines 540-768) -/

/-- Aggressor-finding preflop rescan (lines 543-553): raise #1 gives
`pfr_player`, raise #2 `three_bettor`; no empty-player guard here. -/
structure AggScan where
  pfr_player : Option String
  three_bettor : Option String
  raise_count : Nat
  deriving DecidableEq, Repr

/-- One iteration of the rescan loop. -/
def aggScanStep (s : AggScan) (a : Action) : AggScan :=
  if a.kind = AKind.raise then
    let rc := s.raise_count + 1
    if rc = 1 then { s with pfr_player := some a.player, raise_count := rc }
    else if rc = 2 then { s with three_bettor := some a.player, raise_count := rc }
    else { s with raise_count := rc }
  else s

/-- The full rescan. -/
def aggScan (acts : List Action) : AggScan :=
  acts.foldl aggScanStep
    { pfr_player := none, three_bettor := none, raise_count := 0 }

/-- Line 556: `aggressor = three_bettor if three_bettor else pfr_player`
(Python truthiness: an empty-string 3-bettor falls through to the PFR). -/
def aggressorOf (h : Hand) : Option String :=
  let ag := aggScan h.preflop_actions
  if pyTruthy ag.three_bettor then ag.three_bettor else ag.pfr_player

/-- Line 557: `is_3bet_pot = three_bettor is not None`. -/
def is3betPot (h : Hand) : Bool := (aggScan h.preflop_actions).three_bettor.isSome

/-- `flop_hands += 1` (line 567). -/
def incFlopHands (c : Counters) : Counters :=
  { c with flop_hands := c.flop_hands + 1 }

/-- Lines 562-567: count a flop hand for every player of the hand who appears
in the flop action list and whose unified name is truthy. -/
def flopHandsLoop (h : Hand) (unify : String → String) (st : Stats) : Stats :=
  (h.players.map Prod.fst).foldl
    (fun st p =>
      if p ∈ actors h.flop_actions ∧ unify p ≠ "" then
        bump st (unify p) incFlopHands
      else st)
    st

/-- `donk_bet_opportunities += 1; donk_bets_made += 1` (lines 601-602). -/
def incDonkBoth (c : Counters) : Counters :=
  { c with donk_bet_opportunities := c.donk_bet_opportunities + 1,
           donk_bets_made := c.donk_bets_made + 1 }

/-- Result of the first flop loop (lines 569-604). -/
structure FlopScanR where
  first_actor : Option String
  first_type : Option AKind
  first_bettor : Option String
  checked : List String
  st : Stats

/-- Lines 584-591: record the first actor and collect checkers. -/
def flopTrack (r : FlopScanR) (a : Action) : FlopScanR :=
  let r :=
    if r.first_actor = none then
      { r with first_actor := some a.player, first_type := some a.kind }
    else r
  if a.kind = AKind.check then
    { r with checked := addMem r.checked a.player }
  else r

/-- Lines 597-602: when the first bettor is not the aggressor, credit them a
donk-bet opportunity and a donk-bet made (if they are a known player with a
truthy unified name). -/
def donkCredit (aggressor : Option String)
    (players : List (String × PlayerData)) (unify : String → String)
    (r : FlopScanR) (a : Action) : FlopScanR :=
  match aggressor with
  | some ag =>
    if ag ≠ "" ∧ a.player ≠ ag then
      if memKeys players a.player ∧ unify a.player ≠ "" then
        { r with st := bump r.st (unify a.player) incDonkBoth }
      else r
    else r
  | none => r

/-- The first flop loop (lines 577-604): tracks the first actor, checkers seen
so far, and breaks at the first bet/raise, crediting a donk bet there when the
bettor is not the aggressor. -/
def flopScanGo (aggressor : Option String)
    (players : List (String × PlayerData)) (unify : String → String) :
    List Action → FlopScanR → FlopScanR
  | [], r => r
  | a :: rest, r =>
    if a.player = "" then flopScanGo aggressor players unify rest r
    else
      let r := flopTrack r a
      if (a.kind = AKind.bet ∨ a.kind = AKind.raise) ∧ r.first_bettor = none then
        donkCredit aggressor players unify
          { r with first_bettor := some a.player } a
      else flopScanGo aggressor players unify rest r

/-- Empty initial state for the first flop loop. -/
def initFlopScan (st : Stats) : FlopScanR :=
  { first_actor := none, first_type := none, first_bettor := none,
    checked := [], st := st }

/-- The responder lookup of lines 622-643 (also lines 740-761 on the turn):
skip until the aggressor's first bet/raise, then return the first following
action whose player is non-empty and not the aggressor. -/
def firstResponderGo (agg : String) : Bool → List Action → Option Action
  | _, [] => none
  | false, a :: rest =>
    firstResponderGo agg
      (a.player == agg && (a.kind == AKind.bet || a.kind == AKind.raise)) rest
  | true, a :: rest =>
    if a.player ≠ "" ∧ a.player ≠ agg then some a
    else firstResponderGo agg true rest

/-- Responder to the aggressor's first bet/raise in an action list. -/
def firstResponder (agg : String) (acts : List Action) : Option Action :=
  firstResponderGo agg false acts

/-- Lines 616-617. -/
def incCbetOppMade (c : Counters) : Counters :=
  { c with cbet_opportunities := c.cbet_opportunities + 1,
           cbets_made := c.cbets_made + 1 }

/-- Lines 613-614. -/
def inc3betOppCbetAfter (c : Counters) : Counters :=
  { c with threebetpot_opportunities := c.threebetpot_opportunities + 1,
           cbet_after_3bet_made := c.cbet_after_3bet_made + 1 }

/-- Lines 647-648. -/
def inc3betOppCheckAfter (c : Counters) : Counters :=
  { c with threebetpot_opportunities := c.threebetpot_opportunities + 1,
           check_after_3bet_made := c.check_after_3bet_made + 1 }

/-- Line 653. -/
def inc3betPotOpp (c : Counters) : Counters :=
  { c with threebetpot_opportunities := c.threebetpot_opportunities + 1 }

/-- Line 656. -/
def incCheckAfter3bet (c : Counters) : Counters :=
  { c with check_after_3bet_made := c.check_after_3bet_made + 1 }

/-- Line 658. -/
def incCbetOpp (c : Counters) : Counters :=
  { c with cbet_opportunities := c.cbet_opportunities + 1 }

/-- Lines 637-641: the responder faces the cbet, and folded to it when the
examined action is a fold. -/
def respondCbet (isFold : Bool) (c : Counters) : Counters :=
  let c := { c with faced_cbet_count := c.faced_cbet_count + 1 }
  if isFold then { c with folded_to_cbet := c.folded_to_cbet + 1 } else c

/-- The cbet-opportunity block (lines 606-658).  Returns the updated stats and
the `flop_cbet_made` flag; `none` models the `KeyError` raised at line 633
when the responder is not a key of the hand's player dict. -/
def cbetSection (h : Hand) (unify : String → String)
    (aggressor : Option String) (is3 : Bool) (fs : FlopScanR) :
    Option (Stats × Bool) :=
  let st := fs.st
  match aggressor with
  | none => some (st, false)
  | some a =>
    if a = "" then some (st, false)
    else if memKeys h.players a ∧ unify a ≠ "" ∧ a ∈ actors h.flop_actions then
      if fs.first_bettor = some a then
        let st :=
          if is3 then bump st (unify a) inc3betOppCbetAfter
          else bump st (unify a) incCbetOppMade
        match firstResponder a h.flop_actions with
        | none => some (st, true)
        | some r =>
          if memKeys h.players r.player then
            some (bump st (unify r.player) (respondCbet (r.kind == AKind.fold)),
                  true)
          else none
      else if fs.first_actor = some a ∧ fs.first_type = some AKind.check ∧ is3 then
        some (bump st (unify a) inc3betOppCheckAfter, false)
      else if fs.first_bettor ≠ some a then
        if is3 then
          let st := bump st (unify a) inc3betPotOpp
          if a ∈ fs.checked then
            some (bump st (unify a) incCheckAfter3bet, false)
          else some (st, false)
        else some (bump st (unify a) incCbetOpp, false)
      else some (st, false)
    else some (st, false)

/-- `donk_bet_opportunities += 1` (line 666). -/
def incDonkOpp (c : Counters) : Counters :=
  { c with donk_bet_opportunities := c.donk_bet_opportunities + 1 }

/-- Lines 660-666: every non-aggressor player of the hand appearing in the
flop action list gets a donk-bet opportunity. -/
def donkOppLoop (h : Hand) (unify : String → String)
    (aggressor : Option String) (st : Stats) : Stats :=
  match aggressor with
  | none => st
  | some a =>
    if a = "" then st
    else
      (h.players.map Prod.fst).foldl
        (fun st p =>
          if p ≠ a ∧ p ∈ actors h.flop_actions ∧ unify p ≠ "" then
            bump st (unify p) incDonkOpp
          else st)
        st

/-- Lines 680-690 inner loop: find player `p`'s first action after the
aggressor's first flop check. -/
def bwctFind (a p : String) : Bool → List Action → Option Action
  | _, [] => none
  | flag, act :: rest =>
    if act.player = a ∧ act.kind = AKind.check then bwctFind a p true rest
    else if flag ∧ act.player = p then some act
    else bwctFind a p flag rest

/-- Lines 685-689. -/
def incBwct (isBet : Bool) (c : Counters) : Counters :=
  let c :=
    { c with pfr_checked_to_opportunities := c.pfr_checked_to_opportunities + 1 }
  if isBet then
    { c with pfr_checked_to_bets := c.pfr_checked_to_bets + 1 }
  else c

/-- "Bet when checked to" (lines 668-690). -/
def bwctLoop (h : Hand) (unify : String → String) (aggressor : Option String)
    (checked : List String) (st : Stats) : Stats :=
  match aggressor with
  | none => st
  | some a =>
    if a ≠ "" ∧ a ∈ checked then
      (h.players.map Prod.fst).foldl
        (fun st p =>
          if p ≠ a ∧ p ∈ actors h.flop_actions ∧ unify p ≠ "" then
            match bwctFind a p false h.flop_actions with
            | some act =>
              bump st (unify p)
                (incBwct (act.kind == AKind.bet || act.kind == AKind.raise))
            | none => st
          else st)
        st
    else st

/-- The look-ahead of lines 705-711: the checker's next action on the street. -/
def nextActionBy (p : String) : List Action → Option Action
  | [] => none
  | a :: rest => if a.player = p then some a else nextActionBy p rest

/-- Lines 708-710. -/
def incCheckRaise (isRaise : Bool) (c : Counters) : Counters :=
  let c :=
    { c with check_raise_opportunities := c.check_raise_opportunities + 1 }
  if isRaise then
    { c with check_raises_made := c.check_raises_made + 1 }
  else c

/-- Check-raise analysis (lines 692-711). -/
def checkRaiseGo (players : List (String × PlayerData))
    (unify : String → String) : List Action → Stats → Stats
  | [], st => st
  | a :: rest, st =>
    let st :=
      if a.player ≠ "" ∧ a.kind = AKind.check ∧ memKeys players a.player ∧
          unify a.player ≠ "" then
        match nextActionBy a.player rest with
        | some nx => bump st (unify a.player) (incCheckRaise (nx.kind == AKind.raise))
        | none => st
      else st
    checkRaiseGo players unify rest st

/-- Lines 722-730: first bettor/raiser of the turn (no empty-player guard). -/
def turnFirstAggressor (acts : List Action) : Option String :=
  match acts.find? (fun a => a.kind == AKind.bet || a.kind == AKind.raise) with
  | some a => some a.player
  | none => none

/-- `turn_hands += 1` (line 720). -/
def incTurnHands (c : Counters) : Counters :=
  { c with turn_hands := c.turn_hands + 1 }

/-- Lines 736-737. -/
def incTurnOppMade (c : Counters) : Counters :=
  { c with turn_cbet_opportunities := c.turn_cbet_opportunities + 1,
           turn_cbets_made := c.turn_cbets_made + 1 }

/-- Line 767. -/
def incTurnOpp (c : Counters) : Counters :=
  { c with turn_cbet_opportunities := c.turn_cbet_opportunities + 1 }

/-- Lines 755-759. -/
def respondTurnCbet (isFold : Bool) (c : Counters) : Counters :=
  let c := { c with faced_turn_cbet_count := c.faced_turn_cbet_count + 1 }
  if isFold then
    { c with folded_to_turn_cbet := c.folded_to_turn_cbet + 1 }
  else c

/-- Turn (double-barrel) analysis, lines 713-767, entered only when a flop
cbet was made and the turn action list is non-empty. -/
def turnSection (h : Hand) (unify : String → String)
    (aggressor : Option String) (st : Stats) : Option Stats :=
  let st :=
    (h.players.map Prod.fst).foldl
      (fun st p =>
        if p ∈ actors h.turn_actions ∧ unify p ≠ "" then
          bump st (unify p) incTurnHands
        else st)
      st
  let tfa := turnFirstAggressor h.turn_actions
  if aggressor = tfa then
    match aggressor with
    | some a =>
      if memKeys h.players a ∧ unify a ≠ "" then
        let st := bump st (unify a) incTurnOppMade
        match firstResponder a h.turn_actions with
        | none => some st
        | some r =>
          if memKeys h.players r.player then
            some (bump st (unify r.player) (respondTurnCbet (r.kind == AKind.fold)))
          else none
      else some st
    | none => some st
  else
    match aggressor with
    | some a =>
      if a ≠ "" ∧ a ∈ actors h.turn_actions then
        if memKeys h.players a ∧ unify a ≠ "" then
          some (bump st (unify a) incTurnOpp)
        else some st
      else some st
    | none => some st

/-- `_analyze_postflop_detailed`; `none` models the `KeyError` crashes at
lines 633 and 751. -/
def analyzePostflopDetailed (h : Hand) (unify : String → String) (st : Stats) :
    Option Stats :=
  let aggressor := aggressorOf h
  let is3 := is3betPot h
  if h.flop_actions = [] then some st
  else
    let st := flopHandsLoop h unify st
    let fs := flopScanGo aggressor h.players unify h.flop_actions (initFlopScan st)
    match cbetSection h unify aggressor is3 fs with
    | none => none
    | some (st, flopCbetMade) =>
      let st := donkOppLoop h unify aggressor st
      let st := bwctLoop h unify aggressor fs.checked st
      let st := checkRaiseGo h.players unify h.flop_actions st
      if flopCbetMade ∧ h.turn_actions ≠ [] then turnSection h unify aggressor st
      else some st

/-! ## `calculate_advanced_stats` (lines 316-446) -/

/-- `hands_played += 1` (line 382). -/
def incHandsPlayed (c : Counters) : Counters :=
  { c with hands_played := c.hands_played + 1 }

/-- `showdown_count += 1` (line 394). -/
def incShowdown (c : Counters) : Counters :=
  { c with showdown_count := c.showdown_count + 1 }

/-- Python truthiness of `data.get('hole_cards')`. -/
def truthyHole : Option (List String) → Bool
  | none => false
  | some l => l != []

/-- Lines 380-382. -/
def handsPlayedLoop (h : Hand) (unify : String → String) (st : Stats) : Stats :=
  (h.players.map Prod.fst).foldl (fun st p => bump st (unify p) incHandsPlayed) st

/-- Lines 391-394. -/
def showdownLoop (h : Hand) (unify : String → String) (st : Stats) : Stats :=
  h.players.foldl
    (fun st pd =>
      if truthyHole pd.2.hole_cards then bump st (unify pd.1) incShowdown else st)
    st

/-- Per-hand accumulation (loop body at lines 375-394). -/
def analyzeHandStats (unify : String → String) (st : Stats) (h : Hand) :
    Option Stats :=
  let st := handsPlayedLoop h unify st
  let st := analyzePreflopDetailed h unify st
  match analyzePostflopDetailed h unify st with
  | none => none
  | some st => some (showdownLoop h unify st)

/-- Lines 358-369: the heads-up filter builds `filtered_hands` before any
accumulation. -/
def filteredHands (exclude_heads_up : Bool) (hands : List Hand) : List Hand :=
  hands.filter (fun h => !(exclude_heads_up && h.players.length == 2))

/-- The counter-accumulation part of `calculate_advanced_stats`:
filter, then fold the per-hand analyzer over the surviving hands. -/
def calcAccum (unify : String → String) (exclude_heads_up : Bool)
    (hands : List Hand) : Option Stats :=
  (filteredHands exclude_heads_up hands).foldlM (analyzeHandStats unify) zeroStats

/-- `count / opportunity * 100 if opportunity > 0 else 0` (lines 404-418),
with exact rationals in place of Python floats. -/
def pct (num den : Nat) : ℚ :=
  if den > 0 then (num : ℚ) / (den : ℚ) * 100 else 0

/-- Python `round(x, 1)` modelled over ℚ (round half away ties differ from
float banker's rounding only at exact ties, which no claim depends on). -/
def round1 (q : ℚ) : ℚ := ((round (q * 10) : ℤ) : ℚ) / 10

/-- One output row (lines 420-440). -/
structure Row where
  player : String
  hands : Nat
  flop_hands : Nat
  turn_hands : Nat
  vpip : ℚ
  pfr : ℚ
  threebets : ℚ
  fourbets : ℚ
  call_vs_3bet : ℚ
  cbet : ℚ
  fold_to_cbet : ℚ
  turn_cbet : ℚ
  fold_to_turn_cbet : ℚ
  cbet_after_3bet : ℚ
  check_after_3bet : ℚ
  donk_bet : ℚ
  bet_when_checked_to : ℚ
  check_raise : ℚ
  wtsd : ℚ
  deriving DecidableEq, Repr

/-- Row construction for one player (lines 404-440). -/
def mkRow (u : String) (c : Counters) : Row :=
  { player := u,
    hands := c.hands_played,
    flop_hands := c.flop_hands,
    turn_hands := c.turn_hands,
    vpip := round1 (pct c.vpip_count c.hands_played),
    pfr := round1 (pct c.pfr_count c.hands_played),
    threebets := round1 (pct c.threebets c.faced_raise_count),
    fourbets := round1 (pct c.fourbets c.faced_3bet_count),
    call_vs_3bet := round1 (pct c.called_3bet c.faced_3bet_count),
    cbet := round1 (pct c.cbets_made c.cbet_opportunities),
    fold_to_cbet := round1 (pct c.folded_to_cbet c.faced_cbet_count),
    turn_cbet := round1 (pct c.turn_cbets_made c.turn_cbet_opportunities),
    fold_to_turn_cbet :=
      round1 (pct c.folded_to_turn_cbet c.faced_turn_cbet_count),
    cbet_after_3bet :=
      round1 (pct c.cbet_after_3bet_made c.threebetpot_opportunities),
    check_after_3bet :=
      round1 (pct c.check_after_3bet_made c.threebetpot_opportunities),
    donk_bet := round1 (pct c.donk_bets_made c.donk_bet_opportunities),
    bet_when_checked_to :=
      round1 (pct c.pfr_checked_to_bets c.pfr_checked_to_opportunities),
    check_raise :=
      round1 (pct c.check_raises_made c.check_raise_opportunities),
    wtsd := round1 (pct c.showdown_count c.hands_played) }

/-- The result table (lines 397-440), for a given iteration order of the
accumulator's keys; players with `hands_played = 0` are skipped, and the
final sort (line 444) only permutes rows. -/
def mkRows (names : List String) (st : Stats) : List Row :=
  names.filterMap
    (fun u =>
      if (st u).hands_played > 0 then some (mkRow u (st u)) else none)

/-! ## `parse_hands_with_actions` (lines 211-314) -/

/-- The three board streets. -/
inductive StreetKind where
  | flop
  | turn
  | river
  deriving DecidableEq, Repr

/-- Streets an action can be filed under (`current_street`). -/
inductive Street where
  | preflop
  | flop
  | turn
  | river
  deriving DecidableEq, Repr

/-- Classified log events, as produced by `extract_hand_info`
(`poker_utils.py`).  Only the variants `parse_hands_with_actions` branches on
are distinguished; everything else (`player_join`, `uncalled_bet`, malformed
lines, ...) behaves as `unknown` there.  The hand number carried by the
hand-end line is parsed but never read by this parser, and timestamps are
never read by any analyzed logic, so neither is modelled. -/
inductive Event where
  | hand_start (hand_number : Nat) (hand_id : String) (dealer : Option String)
  | hand_end
  | player_stacks (entries : List (String × Nat))
  | street_card (s : StreetKind) (cards : List String)
  | act (kind : AKind) (player : String) (amount : Nat)
  | show_cards (player : String) (cards : List String)
  | pot_collected (player : String) (amount : Nat)
      (winning_hand : Option String)
  | unknown
  deriving DecidableEq, Repr

/-- Parser state: sealed hands, the open hand, and `current_street`. -/
structure PState where
  hands : List Hand
  current : Option Hand
  street : Street
  deriving DecidableEq, Repr

/-- The fresh hand dict of lines 233-247. -/
def emptyHand (n : Nat) (id : String) (d : Option String) : Hand :=
  { hand_number := n, hand_id := id, dealer := d, players := [], board := [],
    pot := 0, winner := none, winning_hand := none, preflop_actions := [],
    flop_actions := [], turn_actions := [], river_actions := [] }

/-- Fresh player entry of lines 259-263. -/
def freshPlayer (stack : Nat) : PlayerData :=
  { initial_stack := stack, invested := 0, hole_cards := none }

/-- `current_hand['players'][player] = {...}` (dict upsert keeping insertion
order, resetting the entry wholesale). -/
def upsertStack (players : List (String × PlayerData)) (p : String)
    (stack : Nat) : List (String × PlayerData) :=
  if players.any (fun q => q.1 == p) then
    players.map (fun q => if q.1 == p then (p, freshPlayer stack) else q)
  else players ++ [(p, freshPlayer stack)]

/-- Lines 257-263. -/
def setStacks (players : List (String × PlayerData))
    (entries : List (String × Nat)) : List (String × PlayerData) :=
  entries.foldl (fun ps pr => upsertStack ps pr.1 pr.2) players

/-- Lines 296-300. -/
def addInvested (players : List (String × PlayerData)) (p : String)
    (amount : Nat) : List (String × PlayerData) :=
  players.map
    (fun q =>
      if q.1 == p then (q.1, { q.2 with invested := q.2.invested + amount })
      else q)

/-- Lines 302-306. -/
def setHole (players : List (String × PlayerData)) (p : String)
    (cards : List String) : List (String × PlayerData) :=
  players.map
    (fun q => if q.1 == p then (q.1, { q.2 with hole_cards := some cards }) else q)

/-- Lines 285-293: append the action to the list of the current street. -/
def appendToStreet (h : Hand) (s : Street) (a : Action) : Hand :=
  match s with
  | Street.preflop => { h with preflop_actions := h.preflop_actions ++ [a] }
  | Street.flop => { h with flop_actions := h.flop_actions ++ [a] }
  | Street.turn => { h with turn_actions := h.turn_actions ++ [a] }
  | Street.river => { h with river_actions := h.river_actions ++ [a] }

/-- Street named by a board event. -/
def streetOf : StreetKind → Street
  | StreetKind.flop => Street.flop
  | StreetKind.turn => Street.turn
  | StreetKind.river => Street.river

/-- One iteration of the parse loop (lines 227-312). -/
def stepParse (st : PState) (e : Event) : PState :=
  match e with
  | Event.hand_start n id d =>
    { st with current := some (emptyHand n id d), street := Street.preflop }
  | Event.hand_end =>
    match st.current with
    | some h => { st with hands := st.hands ++ [h], current := none }
    | none => st
  | e =>
    match st.current with
    | none => st
    | some h =>
      match e with
      | Event.player_stacks entries =>
        { st with current := some ({ h with players := setStacks h.players entries }) }
      | Event.street_card s cards =>
        { st with street := streetOf s, current := some { h with board := cards } }
      | Event.act kind player amount =>
        let h := appendToStreet h st.street
          { player := player, kind := kind, amount := amount }
        let h :=
          if player ≠ "" ∧ memKeys h.players player then
            { h with players := addInvested h.players player amount }
          else h
        { st with current := some h }
      | Event.show_cards player cards =>
        let h :=
          if memKeys h.players player then
            { h with players := setHole h.players player cards }
          else h
        { st with current := some h }
      | Event.pot_collected player amount wh =>
        let h := { h with winner := some player, pot := amount,
                          winning_hand := wh }
        { st with current := some h }
      | _ => st

/-- Fold the step over an event list from a given state. -/
def runParser (st : PState) (evs : List Event) : PState :=
  evs.foldl stepParse st

/-- Initial parser state (lines 223-225). -/
def initPState : PState :=
  { hands := [], current := none, street := Street.preflop }

/-- `parse_hands_with_actions`: the sealed hands, in encounter order. -/
def parseHandsWithActions (evs : List Event) : List Hand :=
  (runParser initPState evs).hands

/-! ## Dealer inference (`poker_data.py`, `HandParser.parse_hands`,
lines 124-148) -/

/-- The dead-button inference run at hand end when the recorded dealer is
falsy: first scan the hand's players for one that differs from both the
recorded small-blind and big-blind players; if the result is still falsy and
the small-blind player is truthy, use the small-blind player. -/
def inferDealer (dealer : Option String) (sb bb : Option String)
    (players : List String) : Option String :=
  if pyTruthy dealer then dealer
  else
    let d :=
      match players.find? (fun p => !(some p == sb) && !(some p == bb)) with
      | some p => some p
      | none => dealer
    if pyTruthy d then d
    else if pyTruthy sb then sb
    else d

/-! ## Concrete hands for the spec's scenarios -/

/-- A stack-only player entry. -/
def pdStack (n : Nat) : PlayerData :=
  { initial_stack := n, invested := 0, hole_cards := none }

/-- Hand with given players and preflop/flop/turn action lists. -/
def mkHand (names : List String) (pre fl tn : List Action) : Hand :=
  { hand_number := 1, hand_id := "h", dealer := none,
    players := names.map (fun n => (n, pdStack 1000)), board := [], pot := 0,
    winner := none, winning_hand := none, preflop_actions := pre,
    flop_actions := fl, turn_actions := tn, river_actions := [] }

/-- The identity player mapper (`get_unified_name` with an empty mapping). -/
def idU : String → String := fun s => s

/-- Scenario A (spec §8): preflop
`[P1 raises to 30, P2 raises to 90, P3 folds, P1 calls]` over `{P1,P2,P3}`. -/
def handA : Hand :=
  mkHand ["P1", "P2", "P3"]
    [⟨"P1", AKind.raise, 30⟩, ⟨"P2", AKind.raise, 90⟩,
     ⟨"P3", AKind.fold, 0⟩, ⟨"P1", AKind.call, 90⟩]
    [] []

/-- Scenario B (spec §8): no 3-bet, aggressor P1; flop
`[P1 bets 50, P2 folds]`. -/
def handB : Hand :=
  mkHand ["P1", "P2", "P3"]
    [⟨"P1", AKind.raise, 30⟩, ⟨"P2", AKind.call, 30⟩, ⟨"P3", AKind.fold, 0⟩]
    [⟨"P1", AKind.bet, 50⟩, ⟨"P2", AKind.fold, 0⟩]
    []

/-- A hand where a non-aggressor leads the flop: preflop raise by P1, flop
`[P2 bets 10, P1 folds]`. -/
def handDonk : Hand :=
  mkHand ["P1", "P2", "P3"]
    [⟨"P1", AKind.raise, 30⟩, ⟨"P2", AKind.call, 30⟩, ⟨"P3", AKind.fold, 0⟩]
    [⟨"P2", AKind.bet, 10⟩, ⟨"P1", AKind.fold, 0⟩]
    []

/-- A raise that the scan does not skip (non-empty player). -/
def isLiveRaise (a : Action) : Bool :=
  a.player != "" && a.kind == AKind.raise

/-- Number of live raises, i.e. the scan's final `raise_count`. -/
def liveRaises (l : List Action) : Nat := l.countP isLiveRaise

/-- Players of the live raises in order. -/
def liveRaisePlayers (l : List Action) : List String :=
  (l.filter isLiveRaise).map (fun a => a.player)

/-- Maker of raise #1 as tracked by the scan. -/
def firstLiveRaiser (l : List Action) : Option String :=
  (liveRaisePlayers l).head?

/-- Maker of raise #2 (the 3-bettor) as tracked by the scan. -/
def secondLiveRaiser (l : List Action) : Option String :=
  (liveRaisePlayers l).tail.head?

/-- `p` is the non-empty player of some action strictly before raise #1. -/
def actedBeforeFirstRaise (l : List Action) (p : String) : Bool :=
  (l.takeWhile (fun a => !(isLiveRaise a))).any (fun a => a.player == p)

/-- `p` makes a live call at a position where exactly one live raise has
occurred before it (`rc` is the raise count carried into `l`). -/
def callsFacingOne : List Action → Nat → String → Bool
  | [], _, _ => false
  | a :: rest, rc, p =>
    (a.player != "" && a.kind == AKind.call && rc == 1 && a.player == p)
      || callsFacingOne rest (rc + (if isLiveRaise a then 1 else 0)) p

/-- Membership in the scan's final `players_facing_raise` set: acted before
raise #1 (and is not the raiser), called while facing exactly raise #1, or
made raise #2.  Folds and checks after raise #1 do not qualify. -/
def facedRaiseSpec (l : List Action) (p : String) : Bool :=
  p != "" &&
    ((match firstLiveRaiser l with
      | some r => (p != r) && actedBeforeFirstRaise l p
      | none => false)
     || callsFacingOne l 0 p
     || (secondLiveRaiser l == some p))

/-- The new members `players_facing_raise` gains when one more action is
processed: the back-scan at raise #1, the 3-bettor at raise #2, and callers
facing exactly one raise. -/
def newFacing (pre : List Action) (a : Action) (p : String) : Prop :=
  a.player ≠ "" ∧ p ≠ "" ∧
    ((a.kind = AKind.raise ∧ liveRaises pre = 0 ∧ p ≠ a.player ∧
        p ∈ actors pre)
     ∨ (a.kind = AKind.raise ∧ liveRaises pre = 1 ∧ p = a.player)
     ∨ (a.kind = AKind.call ∧ liveRaises pre = 1 ∧ p = a.player))

/-- Closed form of `flop_first_bettor`: the player of the first flop action
with a non-empty player and kind bet/raise. -/
def flopFirstBettor (acts : List Action) : Option String :=
  (acts.find?
    (fun x => x.player != "" && (x.kind == AKind.bet || x.kind == AKind.raise))).map
    (fun x => x.player)

/-- Who (if anyone) is credited the donk bet at the break of the first flop
loop. -/
def donkBettor (aggressor : Option String)
    (players : List (String × PlayerData)) (unify : String → String)
    (acts : List Action) : Option String :=
  match aggressor, flopFirstBettor acts with
  | some ag, some q =>
    if ag ≠ "" ∧ q ≠ ag ∧ memKeys players q = true ∧ unify q ≠ "" then some q
    else none
  | _, _ => none

/-- The four continuation-bet accounting counters, bundled for preservation
reasoning. -/
def cbetQuad (c : Counters) : Nat × Nat × Nat × Nat :=
  (c.cbet_opportunities, c.threebetpot_opportunities,
   c.cbet_after_3bet_made, c.check_after_3bet_made)

/-- `folded_to_cbet` and `faced_cbet_count`, bundled. -/
def foldedPair (c : Counters) : Nat × Nat :=
  (c.folded_to_cbet, c.faced_cbet_count)

/-- Closed form for the per-player eligibility count of the donk-opportunity
loop (lines 660-666). -/
def donkOppCount (h : Hand) (unify : String → String) (agg : Option String)
    (v : String) : Nat :=
  match agg with
  | none => 0
  | some a =>
    if a = "" then 0
    else
      (h.players.map Prod.fst).countP
        (fun p =>
          decide (p ≠ a ∧ p ∈ actors h.flop_actions ∧ unify p ≠ "")
            && (unify p == v))

/-- Events that open or close a hand. -/
def isBoundary : Event → Bool
  | Event.hand_start _ _ _ => true
  | Event.hand_end => true
  | _ => false

/-- The cards of the last flop/turn/river event of an event list, if any. -/
def lastStreetCards (evs : List Event) : Option (List String) :=
  evs.foldl
    (fun acc e =>
      match e with
      | Event.street_card _ c => some c
      | _ => acc)
    none

/-- Board evolution under the parser: each street event replaces it. -/
def boardAfter (b : List String) (evs : List Event) : List String :=
  evs.foldl
    (fun b e =>
      match e with
      | Event.street_card _ c => c
      | _ => b)
    b

/-- The accumulator reached after analyzing Scenario B from a fresh state. -/
def stB : Stats := (analyzeHandStats idU zeroStats handB).getD zeroStats

/-- The accumulator after running the full pipeline on Scenario B alone. -/
def stC7 : Stats := (calcAccum idU true [handB]).getD zeroStats

/-- The two donk-bet counters, bundled. -/
def donkPair (c : Counters) : Nat × Nat :=
  (c.donk_bet_opportunities, c.donk_bets_made)

/-- The postflop accumulator of the donk scenario. -/
def stDonk : Stats := (analyzePostflopDetailed handDonk idU zeroStats).getD zeroStats

/-- Specification-level responder: the first action, strictly after the
aggressor's first bet or raise, whose player is neither empty nor the
aggressor. -/
def firstResponderSpec (agg : String) (acts : List Action) : Option Action :=
  ((acts.dropWhile
      (fun x =>
        !(x.player == agg && (x.kind == AKind.bet || x.kind == AKind.raise)))).tail).find?
    (fun x => x.player != "" && x.player != agg)

/-- `pfr_count`, `vpip_count` and `hands_played`, bundled. -/
def pvhTriple (c : Counters) : Nat × Nat × Nat :=
  (c.pfr_count, c.vpip_count, c.hands_played)

/-- The accumulator after Scenario A alone. -/
def stA : Stats := (calcAccum idU false [handA]).getD zeroStats

/-! ## Theorems -/

/-! ## Generic preservation machinery

A counter projection `P` untouched by every counter map a loop applies is
untouched by the loop.  These lemmas are stated for an arbitrary projection so
that one induction per loop serves every claim. -/

theorem bump_apply (st : Stats) (u : String) (f : Counters → Counters)
    (v : String) : bump st u f v = if v = u then f (st v) else st v := rfl

theorem bump_pres {β : Type} (P : Counters → β) {g : Counters → Counters}
    (hg : ∀ c, P (g c) = P c) (st : Stats) (u v : String) :
    P (bump st u g v) = P (st v) := by
  rw [bump_apply]
  split <;> simp [hg]

theorem foldl_stats_pres {α β : Type} (P : Counters → β)
    (step : Stats → α → Stats)
    (hstep : ∀ st a v, P (step st a v) = P (st v)) :
    ∀ (l : List α) (st : Stats) (v : String),
      P (l.foldl step st v) = P (st v) := by
  intro l
  induction l with
  | nil => intro st v; rfl
  | cons a l ih => intro st v; rw [List.foldl_cons, ih, hstep]

/-- Conditional-bump loops: the touched projection grows by the number of
satisfying elements. -/
theorem foldl_bump_count {α : Type} (P : Counters → Nat)
    {g : Counters → Counters} (hg : ∀ c, P (g c) = P c + 1)
    (cond : α → Bool) (key : α → String) :
    ∀ (l : List α) (st : Stats) (v : String),
      P ((l.foldl
            (fun st a => if cond a then bump st (key a) g else st) st) v)
        = P (st v) + l.countP (fun a => cond a && key a == v) := by
  intro l
  induction l with
  | nil => intro st v; simp
  | cons a l ih =>
    intro st v
    rw [List.foldl_cons, ih, List.countP_cons]
    by_cases hc : cond a
    · simp only [hc, if_true, Bool.true_and]
      by_cases hv : key a = v
      · subst hv
        rw [bump_apply]
        simp [hg]
        omega
      · rw [bump_apply, if_neg (by simpa [eq_comm] using hv)]
        simp [beq_iff_eq, hv]
    · simp [hc]

/-! ## Closed-form description of the preflop scan

The scan at lines 465-512 skips actions with falsy players; the following
definitions give position-free descriptions of its state, proved equivalent
in `preflopScanGo_inv` below, and are used to phrase the preflop claims. -/

theorem mem_addMem (l : List String) (x p : String) :
    p ∈ addMem l x ↔ p ∈ l ∨ p = x := by
  unfold addMem
  split
  · constructor
    · exact fun h => Or.inl h
    · rintro (h | rfl) <;> assumption
  · simp

theorem mem_actors_cons (a : Action) (pre : List Action) (p : String) :
    p ∈ actors (a :: pre) ↔ p = a.player ∨ p ∈ actors pre := by
  simp only [actors, List.map_cons, List.mem_cons]

theorem mem_prevActorsAdd (pre : List Action) (raiser : String) :
    ∀ (s : List String) (p : String),
      p ∈ prevActorsAdd pre raiser s ↔
        p ∈ s ∨ (p ≠ "" ∧ p ≠ raiser ∧ p ∈ actors pre) := by
  induction pre with
  | nil => intro s p; simp [prevActorsAdd, actors]
  | cons a pre ih =>
    intro s p
    have hact := mem_actors_cons a pre p
    show p ∈ prevActorsAdd pre raiser
        (if a.player ≠ "" ∧ a.player ≠ raiser then addMem s a.player else s) ↔ _
    rw [ih]
    by_cases hcond : a.player ≠ "" ∧ a.player ≠ raiser
    · rw [if_pos hcond, mem_addMem]
      constructor
      · rintro ((hs | rfl) | ⟨h1, h2, h3⟩)
        · exact Or.inl hs
        · exact Or.inr ⟨hcond.1, hcond.2, hact.mpr (Or.inl rfl)⟩
        · exact Or.inr ⟨h1, h2, hact.mpr (Or.inr h3)⟩
      · rintro (hs | ⟨h1, h2, h3⟩)
        · exact Or.inl (Or.inl hs)
        · rcases hact.mp h3 with rfl | hm
          · exact Or.inl (Or.inr rfl)
          · exact Or.inr ⟨h1, h2, hm⟩
    · rw [if_neg hcond]
      constructor
      · rintro (hs | ⟨h1, h2, h3⟩)
        · exact Or.inl hs
        · exact Or.inr ⟨h1, h2, hact.mpr (Or.inr h3)⟩
      · rintro (hs | ⟨h1, h2, h3⟩)
        · exact Or.inl hs
        · rcases hact.mp h3 with rfl | hm
          · exact absurd ⟨h1, h2⟩ hcond
          · exact Or.inr ⟨h1, h2, hm⟩

theorem liveRaisePlayers_append (l : List Action) (a : Action) :
    liveRaisePlayers (l ++ [a])
      = liveRaisePlayers l ++ (if isLiveRaise a then [a.player] else []) := by
  unfold liveRaisePlayers
  rw [List.filter_append]
  split <;> rename_i h <;> simp [List.filter, h]

theorem liveRaises_eq_length (l : List Action) :
    liveRaises l = (liveRaisePlayers l).length := by
  simp [liveRaises, liveRaisePlayers, List.countP_eq_length_filter]

theorem liveRaises_append (l : List Action) (a : Action) :
    liveRaises (l ++ [a])
      = liveRaises l + (if isLiveRaise a then 1 else 0) := by
  rw [liveRaises_eq_length, liveRaises_eq_length, liveRaisePlayers_append]
  split <;> simp

theorem takeWhile_notLive_append (l : List Action) (a : Action) :
    (l ++ [a]).takeWhile (fun x => !(isLiveRaise x))
      = if liveRaises l = 0
        then l ++ [a].takeWhile (fun x => !(isLiveRaise x))
        else l.takeWhile (fun x => !(isLiveRaise x)) := by
  induction l with
  | nil => simp [liveRaises]
  | cons b l ih =>
    by_cases hb : isLiveRaise b
    · have : liveRaises (b :: l) ≠ 0 := by
        simp [liveRaises, List.countP_cons, hb]
      simp [List.takeWhile_cons, hb, this]
    · have hlr : liveRaises (b :: l) = liveRaises l := by
        simp [liveRaises, List.countP_cons, hb]
      simp only [List.cons_append, List.takeWhile_cons, hb, Bool.not_false,
        if_true, hlr, ih]
      split <;> simp

theorem callsFacingOne_append (l : List Action) (a : Action) :
    ∀ (rc : Nat) (p : String),
      callsFacingOne (l ++ [a]) rc p
        = (callsFacingOne l rc p
           || (a.player != "" && (a.kind == AKind.call)
               && ((rc + liveRaises l) == 1) && (a.player == p))) := by
  induction l with
  | nil => intro rc p; simp [callsFacingOne, liveRaises]
  | cons b l ih =>
    intro rc p
    have harith : rc + (if isLiveRaise b then 1 else 0) + liveRaises l
        = rc + liveRaises (b :: l) := by
      simp only [liveRaises, List.countP_cons]
      ring
    rw [List.cons_append]
    show (_ || callsFacingOne (l ++ [a]) (rc + (if isLiveRaise b then 1 else 0)) p)
        = ((_ || callsFacingOne l (rc + (if isLiveRaise b then 1 else 0)) p) || _)
    rw [ih, ← Bool.or_assoc, harith]

theorem callsFacingOne_zero (l : List Action) :
    liveRaises l = 0 → ∀ p, callsFacingOne l 0 p = false := by
  induction l with
  | nil => intro _ p; rfl
  | cons a l ih =>
    intro h p
    have ha : isLiveRaise a = false := by
      by_contra hc
      simp only [Bool.not_eq_false] at hc
      simp [liveRaises, List.countP_cons, hc] at h
    have hl : liveRaises l = 0 := by
      simpa [liveRaises, List.countP_cons, ha] using h
    rw [callsFacingOne]
    simp [ha, ih hl p]

theorem firstLiveRaiser_append (l : List Action) (a : Action) :
    firstLiveRaiser (l ++ [a])
      = match firstLiveRaiser l with
        | some r => some r
        | none => if isLiveRaise a then some a.player else none := by
  unfold firstLiveRaiser
  rw [liveRaisePlayers_append]
  cases hl : liveRaisePlayers l with
  | nil => split <;> simp
  | cons x xs => simp

theorem secondLiveRaiser_append (l : List Action) (a : Action) :
    secondLiveRaiser (l ++ [a])
      = match liveRaisePlayers l with
        | [] => none
        | [_] => if isLiveRaise a then some a.player else none
        | _ :: _ :: _ => secondLiveRaiser l := by
  unfold secondLiveRaiser
  rw [liveRaisePlayers_append]
  cases hl : liveRaisePlayers l with
  | nil => split <;> simp
  | cons x xs =>
    cases xs with
    | nil => split <;> simp
    | cons y ys => simp

theorem liveRaises_eq_zero_iff (l : List Action) :
    liveRaises l = 0 ↔ liveRaisePlayers l = [] := by
  rw [liveRaises_eq_length, List.length_eq_zero]

theorem any_player_iff (l : List Action) (p : String) :
    (l.any (fun x => x.player == p)) = true ↔ p ∈ actors l := by
  simp [actors, List.any_eq_true, List.mem_map]

theorem facedRaiseSpec_iff (l : List Action) (p : String) :
    facedRaiseSpec l p = true ↔
      p ≠ "" ∧
        ((∃ r, firstLiveRaiser l = some r ∧ p ≠ r ∧
            actedBeforeFirstRaise l p = true)
         ∨ callsFacingOne l 0 p = true
         ∨ secondLiveRaiser l = some p) := by
  unfold facedRaiseSpec
  cases hfr : firstLiveRaiser l with
  | none => simp [hfr]
  | some r => simp [hfr, and_assoc, or_assoc]

theorem firstLiveRaiser_eq_none_iff (l : List Action) :
    firstLiveRaiser l = none ↔ liveRaises l = 0 := by
  rw [liveRaises_eq_zero_iff, firstLiveRaiser, List.head?_eq_none_iff]

theorem firstLiveRaiser_append_notLive (l : List Action) (a : Action)
    (h : isLiveRaise a = false) :
    firstLiveRaiser (l ++ [a]) = firstLiveRaiser l := by
  rw [firstLiveRaiser_append]
  cases firstLiveRaiser l <;> simp [h]

theorem secondLiveRaiser_append_notLive (l : List Action) (a : Action)
    (h : isLiveRaise a = false) :
    secondLiveRaiser (l ++ [a]) = secondLiveRaiser l := by
  rw [secondLiveRaiser_append]
  cases hl : liveRaisePlayers l with
  | nil => simp [h, secondLiveRaiser, hl]
  | cons x xs =>
    cases xs with
    | nil => simp [h, secondLiveRaiser, hl]
    | cons y ys => simp

theorem secondLiveRaiser_none_of_le_one (l : List Action)
    (h : liveRaises l ≤ 1) : secondLiveRaiser l = none := by
  rw [liveRaises_eq_length] at h
  unfold secondLiveRaiser
  cases hl : liveRaisePlayers l with
  | nil => rfl
  | cons x xs =>
    cases xs with
    | nil => rfl
    | cons y ys => rw [hl] at h; simp at h

theorem takeWhile_notLive_all (l : List Action) (h : liveRaises l = 0) :
    l.takeWhile (fun x => !(isLiveRaise x)) = l := by
  rw [List.takeWhile_eq_self_iff]
  intro x hx
  simpa using List.countP_eq_zero.mp h x hx

theorem actedBefore_append_notLive (l : List Action) (a : Action) (p : String)
    (hl : liveRaises l ≠ 0) :
    actedBeforeFirstRaise (l ++ [a]) p = actedBeforeFirstRaise l p := by
  unfold actedBeforeFirstRaise
  rw [takeWhile_notLive_append, if_neg hl]

theorem actedBefore_of_no_raise (l : List Action) (p : String)
    (h : liveRaises l = 0) :
    actedBeforeFirstRaise l p = true ↔ p ∈ actors l := by
  unfold actedBeforeFirstRaise
  rw [takeWhile_notLive_all l h, any_player_iff]

/-- The appended call disjunct of `callsFacingOne_append`, in `Prop` form. -/
theorem callsAppend_disj (a : Action) (n : Nat) (p : String) :
    (a.player != "" && (a.kind == AKind.call) && (n == 1) && (a.player == p))
        = true
      ↔ a.player ≠ "" ∧ a.kind = AKind.call ∧ n = 1 ∧ a.player = p := by
  simp [and_assoc]

theorem facedRaiseSpec_append (pre : List Action) (a : Action) (p : String) :
    facedRaiseSpec (pre ++ [a]) p = true ↔
      (facedRaiseSpec pre p = true ∨ newFacing pre a p) := by
  by_cases hp : p = ""
  · subst hp
    simp [facedRaiseSpec_iff, newFacing]
  rw [facedRaiseSpec_iff, facedRaiseSpec_iff]
  have hcalls := callsFacingOne_append pre a 0 p
  by_cases hla : isLiveRaise a = true
  · -- a is a live raise: the call disjunct is unchanged
    have hap : a.player ≠ "" := by
      intro hc
      rw [isLiveRaise, hc] at hla
      simp at hla
    have hak : a.kind = AKind.raise := by
      have hh := hla
      simp only [isLiveRaise, Bool.and_eq_true, beq_iff_eq] at hh
      exact hh.2
    have hcalls2 : callsFacingOne (pre ++ [a]) 0 p = callsFacingOne pre 0 p := by
      rw [hcalls]
      simp [hak]
    rcases Nat.lt_or_ge (liveRaises pre) 2 with hlt | hge
    · interval_cases hn : liveRaises pre
      · -- no prior raise: raise #1 appears now
        have hfr0 : firstLiveRaiser pre = none :=
          (firstLiveRaiser_eq_none_iff pre).mpr hn
        have hfr2 : firstLiveRaiser (pre ++ [a]) = some a.player := by
          rw [firstLiveRaiser_append, hfr0]
          simp [hla]
        have hsec0 : secondLiveRaiser pre = none :=
          secondLiveRaiser_none_of_le_one pre (by omega)
        have hsec2 : secondLiveRaiser (pre ++ [a]) = none := by
          rw [secondLiveRaiser_append]
          rw [liveRaises_eq_zero_iff] at hn
          simp [hn]
        have htw : [a].takeWhile (fun x => !(isLiveRaise x)) = [] := by
          simp [hla]
        have hab2 : actedBeforeFirstRaise (pre ++ [a]) p = true ↔
            p ∈ actors pre := by
          unfold actedBeforeFirstRaise
          rw [takeWhile_notLive_append, if_pos hn, htw, List.append_nil,
            any_player_iff]
        have hcz : callsFacingOne pre 0 p = false := callsFacingOne_zero pre hn p
        rw [hfr2, hsec2, hcalls2, hcz]
        constructor
        · rintro ⟨hq, hD⟩
          rcases hD with ⟨r, hr, hpr, hab⟩ | hc | hs
          · have hr2 : a.player = r := by injection hr
            subst hr2
            exact Or.inr ⟨hap, hq, Or.inl ⟨hak, hn, hpr, hab2.mp hab⟩⟩
          · simp at hc
          · simp at hs
        · rintro (⟨hq, hD⟩ | ⟨_, hq, hnf⟩)
          · rcases hD with ⟨r, hr, hpr, hab⟩ | hc | hs
            · rw [hfr0] at hr
              simp at hr
            · simp at hc
            · rw [hsec0] at hs
              simp at hs
          · rcases hnf with ⟨_, _, hpa, hmem⟩ | ⟨_, h1, _⟩ | ⟨hk, _, _⟩
            · exact ⟨hq, Or.inl ⟨a.player, rfl, hpa, hab2.mpr hmem⟩⟩
            · omega
            · rw [hak] at hk; simp at hk
      · -- exactly one prior raise: raise #2 (the 3-bet) appears now
        obtain ⟨x, hx⟩ : ∃ x, liveRaisePlayers pre = [x] :=
          List.length_eq_one.mp ((liveRaises_eq_length pre) ▸ hn)
        have hfr : firstLiveRaiser pre = some x := by
          simp [firstLiveRaiser, hx]
        have hfr2 : firstLiveRaiser (pre ++ [a]) = some x := by
          rw [firstLiveRaiser_append, hfr]
        have hsec0 : secondLiveRaiser pre = none :=
          secondLiveRaiser_none_of_le_one pre (by omega)
        have hsec2 : secondLiveRaiser (pre ++ [a]) = some a.player := by
          rw [secondLiveRaiser_append, hx]
          simp [hla]
        have hab2 := actedBefore_append_notLive pre a p (by omega)
        rw [hfr2, hfr, hsec2, hsec0, hcalls2, hab2]
        constructor
        · rintro ⟨hq, hD⟩
          rcases hD with hD | hc | hs
          · exact Or.inl ⟨hq, Or.inl hD⟩
          · exact Or.inl ⟨hq, Or.inr (Or.inl hc)⟩
          · have hs2 : a.player = p := by injection hs
            exact Or.inr ⟨hap, hq, Or.inr (Or.inl ⟨hak, hn, hs2.symm⟩)⟩
        · rintro (⟨hq, hD⟩ | ⟨_, hq, hnf⟩)
          · rcases hD with hD | hc | hs
            · exact ⟨hq, Or.inl hD⟩
            · exact ⟨hq, Or.inr (Or.inl hc)⟩
            · simp at hs
          · rcases hnf with ⟨_, h0, _⟩ | ⟨_, _, hpa⟩ | ⟨hk, _, _⟩
            · omega
            · exact ⟨hq, Or.inr (Or.inr (by rw [hpa]))⟩
            · rw [hak] at hk; simp at hk
    · -- two or more prior raises: nothing changes
      obtain ⟨x, y, ys, hxy⟩ : ∃ x y ys, liveRaisePlayers pre = x :: y :: ys := by
        have hlen := (liveRaises_eq_length pre) ▸ hge
        cases hl : liveRaisePlayers pre with
        | nil => rw [hl] at hlen; simp at hlen
        | cons x xs =>
          cases xs with
          | nil => rw [hl] at hlen; simp at hlen
          | cons y ys => exact ⟨x, y, ys, rfl⟩
      have hfr2 : firstLiveRaiser (pre ++ [a]) = firstLiveRaiser pre := by
        rw [firstLiveRaiser_append]
        rw [show firstLiveRaiser pre = some x by simp [firstLiveRaiser, hxy]]
      have hsec2 : secondLiveRaiser (pre ++ [a]) = secondLiveRaiser pre := by
        rw [secondLiveRaiser_append, hxy]
      have hab2 := actedBefore_append_notLive pre a p (by omega)
      have hnf : ¬ newFacing pre a p := by
        rintro ⟨_, _, ⟨_, h0, _⟩ | ⟨_, h1, _⟩ | ⟨_, h1, _⟩⟩ <;> omega
      rw [hfr2, hsec2, hcalls2, hab2]
      constructor
      · rintro ⟨hq, hD⟩
        exact Or.inl ⟨hq, hD⟩
      · rintro (⟨hq, hD⟩ | hnf2)
        · exact ⟨hq, hD⟩
        · exact absurd hnf2 hnf
  · -- a is not a live raise
    have hla2 : isLiveRaise a = false := by
      cases hb : isLiveRaise a
      · rfl
      · exact absurd hb hla
    have hfr2 := firstLiveRaiser_append_notLive pre a hla2
    have hsec2 := secondLiveRaiser_append_notLive pre a hla2
    rw [hfr2, hsec2, hcalls]
    rw [Bool.or_eq_true, callsAppend_disj]
    by_cases h0 : liveRaises pre = 0
    · -- no raise at all: the before-the-raise disjunct is dead on both sides
      have hfr0 : firstLiveRaiser pre = none :=
        (firstLiveRaiser_eq_none_iff pre).mpr h0
      have hnf : ¬ newFacing pre a p := by
        rintro ⟨hne, _, ⟨hk, _, hpa, _⟩ | ⟨hk, h1, _⟩ | ⟨_, h1, _⟩⟩
        · exact absurd (by simp [isLiveRaise, hne, hk] : isLiveRaise a = true)
            (by rw [hla2]; simp)
        · omega
        · omega
      rw [hfr0]
      simp only [Nat.zero_add, h0]
      constructor
      · rintro ⟨hq, hD⟩
        rcases hD with ⟨r, hr, hpr, hab⟩ | (hc | ⟨_, _, h1, _⟩) | hs
        · simp at hr
        · exact Or.inl ⟨hq, Or.inr (Or.inl hc)⟩
        · omega
        · exact Or.inl ⟨hq, Or.inr (Or.inr hs)⟩
      · rintro (⟨hq, hD⟩ | hnf2)
        · rcases hD with ⟨r, hr, hpr, hab⟩ | hc | hs
          · simp at hr
          · exact ⟨hq, Or.inr (Or.inl (Or.inl hc))⟩
          · exact ⟨hq, Or.inr (Or.inr hs)⟩
        · exact absurd hnf2 hnf
    · have hab2 := actedBefore_append_notLive pre a p h0
      rw [hab2]
      simp only [Nat.zero_add]
      constructor
      · rintro ⟨hq, hD⟩
        rcases hD with hD | (hc | ⟨hne, hk, h1, hpa⟩) | hs
        · exact Or.inl ⟨hq, Or.inl hD⟩
        · exact Or.inl ⟨hq, Or.inr (Or.inl hc)⟩
        · exact Or.inr ⟨hne, hq, Or.inr (Or.inr ⟨hk, h1, hpa.symm⟩)⟩
        · exact Or.inl ⟨hq, Or.inr (Or.inr hs)⟩
      · rintro (⟨hq, hD⟩ | ⟨hne, hq, hnf⟩)
        · rcases hD with hD | hc | hs
          · exact ⟨hq, Or.inl hD⟩
          · exact ⟨hq, Or.inr (Or.inl (Or.inl hc))⟩
          · exact ⟨hq, Or.inr (Or.inr hs)⟩
        · rcases hnf with ⟨hk, _, _, _⟩ | ⟨hk, h1, hpa⟩ | ⟨hk, h1, hpa⟩
          · exact absurd (by simp [isLiveRaise, hne, hk] : isLiveRaise a = true)
              (by rw [hla2]; simp)
          · exact absurd (by simp [isLiveRaise, hne, hk] : isLiveRaise a = true)
              (by rw [hla2]; simp)
          · exact ⟨hq, Or.inr (Or.inl (Or.inr ⟨hne, hk, h1, hpa.symm⟩))⟩

theorem addMem_mono {l : List String} {x : String} (y : String) (h : x ∈ l) :
    x ∈ addMem l y := (mem_addMem l y x).mpr (Or.inl h)

theorem mem_addMem_self (l : List String) (y : String) : y ∈ addMem l y :=
  (mem_addMem l y y).mpr (Or.inr rfl)

theorem firstLiveRaiser_ne_empty {l : List Action} {r : String}
    (h : firstLiveRaiser l = some r) : r ≠ "" := by
  have hm : r ∈ liveRaisePlayers l := by
    unfold firstLiveRaiser at h
    cases hl : liveRaisePlayers l with
    | nil => rw [hl] at h; simp at h
    | cons x xs =>
      rw [hl] at h
      simp only [List.head?_cons, Option.some.injEq] at h
      rw [← h]
      exact List.mem_cons_self x xs
  unfold liveRaisePlayers at hm
  obtain ⟨x, hx, hxr⟩ := List.mem_map.mp hm
  have := List.of_mem_filter hx
  simp only [isLiveRaise, Bool.and_eq_true, bne_iff_ne, ne_eq] at this
  rw [← hxr]
  exact this.1

theorem facedRaiseSpec_nil (p : String) : facedRaiseSpec [] p = false := by
  simp [facedRaiseSpec, firstLiveRaiser, liveRaisePlayers, secondLiveRaiser,
    callsFacingOne]

theorem preflopStep_raise_count (pre : List Action) (s : PreScan)
    (a : Action) :
    (preflopStep pre s a).raise_count
      = s.raise_count + (if isLiveRaise a then 1 else 0) := by
  unfold preflopStep
  by_cases ha : a.player = ""
  · simp [ha, isLiveRaise]
  · rw [if_neg ha]
    have hbne : (a.player != "") = true := by simp [ha]
    cases hk : a.kind <;>
      simp [isLiveRaise, hbne, hk] <;> split_ifs <;> simp

theorem preflopStep_first_raiser (pre : List Action) (s : PreScan)
    (a : Action) :
    (preflopStep pre s a).first_raiser
      = if isLiveRaise a = true ∧ s.raise_count = 0 then some a.player
        else s.first_raiser := by
  unfold preflopStep
  by_cases ha : a.player = ""
  · simp [ha, isLiveRaise]
  · rw [if_neg ha]
    have hbne : (a.player != "") = true := by simp [ha]
    cases hk : a.kind <;>
      simp [isLiveRaise, hbne, hk] <;> split_ifs <;> simp_all

theorem preflopStep_invested_mono (pre : List Action) (s : PreScan)
    (a : Action) (x : String) (h : x ∈ s.players_invested) :
    x ∈ (preflopStep pre s a).players_invested := by
  unfold preflopStep
  by_cases ha : a.player = ""
  · simpa [ha]
  · rw [if_neg ha]
    cases hk : a.kind <;> simp [hk] <;> (try split_ifs) <;>
      simp_all [mem_addMem]

theorem preflopStep_invested_self (pre : List Action) (s : PreScan)
    (a : Action) (ha : a.player ≠ "")
    (hk : a.kind = AKind.call ∨ a.kind = AKind.bet ∨ a.kind = AKind.raise) :
    a.player ∈ (preflopStep pre s a).players_invested := by
  unfold preflopStep
  rw [if_neg ha, if_pos hk]
  cases hkk : a.kind <;> simp [hkk] <;> (try split_ifs) <;>
    simp_all [mem_addMem]

theorem preflopStep_facing (pre : List Action) (s : PreScan) (a : Action) :
    ∀ p, p ∈ (preflopStep pre s a).players_facing_raise ↔
      (p ∈ s.players_facing_raise
       ∨ (isLiveRaise a = true ∧ s.raise_count = 0 ∧ p ≠ "" ∧ p ≠ a.player ∧
           p ∈ actors pre)
       ∨ (isLiveRaise a = true ∧ s.raise_count = 1 ∧ p = a.player)
       ∨ (a.player ≠ "" ∧ a.kind = AKind.call ∧ s.raise_count = 1 ∧
           p = a.player)) := by
  intro p
  unfold preflopStep
  by_cases ha : a.player = ""
  · simp [ha, isLiveRaise]
  · rw [if_neg ha]
    have hbne : (a.player != "") = true := by simp [ha]
    cases hk : a.kind with
    | small_blind => simp [isLiveRaise, hbne, hk]
    | big_blind => simp [isLiveRaise, hbne, hk]
    | bet => simp [isLiveRaise, hbne, hk]
    | check => simp [isLiveRaise, hbne, hk]
    | fold => simp [isLiveRaise, hbne, hk]
    | call =>
      simp only [isLiveRaise, hbne, hk, Bool.true_and]
      rcases hc : s.raise_count with _ | n
      · simp [ha]
      · cases n with
        | zero =>
          simp [ha, mem_addMem]
          try tauto
        | succ m =>
          simp [ha]
          rw [apply_ite PreScan.players_facing_raise]
          split_ifs <;> simp
    | raise =>
      simp only [isLiveRaise, hbne, hk, Bool.true_and]
      rcases hc : s.raise_count with _ | n
      · simp [ha, mem_prevActorsAdd]
        try tauto
      · cases n with
        | zero =>
          simp [ha, mem_addMem]
          try tauto
        | succ m =>
          simp [ha]
          rw [apply_ite PreScan.players_facing_raise]
          split_ifs <;> simp

/-- One step of the preflop scan preserves the closed-form description of the
state (raise count, first raiser, first raiser invested, facing-raise set). -/
theorem preflopStep_inv (pre : List Action) (s : PreScan) (a : Action)
    (hrc : s.raise_count = liveRaises pre)
    (hfr : s.first_raiser = firstLiveRaiser pre)
    (hfi : ∀ f, s.first_raiser = some f → f ∈ s.players_invested)
    (hfac : ∀ p, p ∈ s.players_facing_raise ↔ facedRaiseSpec pre p = true) :
    (preflopStep pre s a).raise_count = liveRaises (pre ++ [a])
    ∧ (preflopStep pre s a).first_raiser = firstLiveRaiser (pre ++ [a])
    ∧ (∀ f, (preflopStep pre s a).first_raiser = some f →
        f ∈ (preflopStep pre s a).players_invested)
    ∧ (∀ p, p ∈ (preflopStep pre s a).players_facing_raise ↔
        facedRaiseSpec (pre ++ [a]) p = true) := by
  have hfr2 : (preflopStep pre s a).first_raiser = firstLiveRaiser (pre ++ [a]) := by
    rw [preflopStep_first_raiser, firstLiveRaiser_append, hfr, hrc]
    by_cases hla : isLiveRaise a = true
    · by_cases h0 : liveRaises pre = 0
      · rw [if_pos ⟨hla, h0⟩]
        rw [(firstLiveRaiser_eq_none_iff pre).mpr h0]
        simp [hla]
      · rw [if_neg (by tauto)]
        cases hfl : firstLiveRaiser pre with
        | none => rw [firstLiveRaiser_eq_none_iff] at hfl; omega
        | some r => rfl
    · rw [if_neg (by tauto)]
      cases hfl : firstLiveRaiser pre with
      | none => simp [show isLiveRaise a = false by
          cases hb : isLiveRaise a
          · rfl
          · exact absurd hb hla]
      | some r => rfl
  refine ⟨?_, hfr2, ?_, ?_⟩
  · rw [preflopStep_raise_count, liveRaises_append, hrc]
  · intro f hf
    rw [hfr2, firstLiveRaiser_append] at hf
    by_cases hla : isLiveRaise a = true
    · cases hfl : firstLiveRaiser pre with
      | none =>
        rw [hfl] at hf
        simp only [hla, if_true] at hf
        have hfa : f = a.player := by
          cases hf
          rfl
        subst hfa
        have hane : a.player ≠ "" := by
          intro hc
          rw [isLiveRaise, hc] at hla
          simp at hla
        have hks : a.kind = AKind.raise := by
          have hh := hla
          simp only [isLiveRaise, Bool.and_eq_true, beq_iff_eq] at hh
          exact hh.2
        exact preflopStep_invested_self pre s a hane (Or.inr (Or.inr hks))
      | some r =>
        rw [hfl] at hf
        exact preflopStep_invested_mono pre s a f
          (hfi f (by rw [hfr, hfl]; exact hf))
    · have hla2 : isLiveRaise a = false := by
        cases hb : isLiveRaise a
        · rfl
        · exact absurd hb hla
      cases hfl : firstLiveRaiser pre with
      | none =>
        rw [hfl] at hf
        simp [hla2] at hf
      | some r =>
        rw [hfl] at hf
        exact preflopStep_invested_mono pre s a f
          (hfi f (by rw [hfr, hfl]; exact hf))
  · intro p
    rw [preflopStep_facing, hfac p, facedRaiseSpec_append, hrc]
    unfold newFacing
    by_cases hla : isLiveRaise a = true
    · have hane : a.player ≠ "" := by
        intro hc
        rw [isLiveRaise, hc] at hla
        simp at hla
      have hks : a.kind = AKind.raise := by
        have hh := hla
        simp only [isLiveRaise, Bool.and_eq_true, beq_iff_eq] at hh
        exact hh.2
      constructor
      · rintro (hs | ⟨_, h0, hq, hpa, hm⟩ | ⟨_, h1, hpa⟩ |
          ⟨_, hkc, _, _⟩)
        · exact Or.inl hs
        · exact Or.inr ⟨hane, hq, Or.inl ⟨hks, h0, hpa, hm⟩⟩
        · subst hpa
          exact Or.inr ⟨hane, hane, Or.inr (Or.inl ⟨hks, h1, rfl⟩)⟩
        · rw [hks] at hkc; simp at hkc
      · rintro (hs | ⟨hne, hq, ⟨_, h0, hpa, hm⟩ | ⟨_, h1, hpa⟩ |
          ⟨hkc, _, _⟩⟩)
        · exact Or.inl hs
        · exact Or.inr (Or.inl ⟨hla, h0, hq, hpa, hm⟩)
        · exact Or.inr (Or.inr (Or.inl ⟨hla, h1, hpa⟩))
        · rw [hks] at hkc; simp at hkc
    · have hla2 : isLiveRaise a = false := by
        cases hb : isLiveRaise a
        · rfl
        · exact absurd hb hla
      constructor
      · rintro (hs | ⟨hl, _⟩ | ⟨hl, _⟩ | ⟨hne, hkc, h1, hpa⟩)
        · exact Or.inl hs
        · exact absurd hl hla
        · exact absurd hl hla
        · subst hpa
          exact Or.inr ⟨hne, hne, Or.inr (Or.inr ⟨hkc, h1, rfl⟩)⟩
      · rintro (hs | ⟨hne, hq, ⟨hkr, _, _, _⟩ | ⟨hkr, _, _⟩ |
          ⟨hkc, h1, hpa⟩⟩)
        · exact Or.inl hs
        · exact absurd (by simp [isLiveRaise, hne, hkr] : isLiveRaise a = true)
            hla
        · exact absurd (by simp [isLiveRaise, hne, hkr] : isLiveRaise a = true)
            hla
        · exact Or.inr (Or.inr (Or.inr ⟨hne, hkc, h1, hpa⟩))

theorem preflopScanGo_inv (rest : List Action) :
    ∀ (pre : List Action) (s : PreScan),
      s.raise_count = liveRaises pre →
      s.first_raiser = firstLiveRaiser pre →
      (∀ f, s.first_raiser = some f → f ∈ s.players_invested) →
      (∀ p, p ∈ s.players_facing_raise ↔ facedRaiseSpec pre p = true) →
      ((preflopScanGo pre rest s).raise_count = liveRaises (pre ++ rest)
       ∧ (preflopScanGo pre rest s).first_raiser
           = firstLiveRaiser (pre ++ rest)
       ∧ (∀ f, (preflopScanGo pre rest s).first_raiser = some f →
           f ∈ (preflopScanGo pre rest s).players_invested)
       ∧ (∀ p, p ∈ (preflopScanGo pre rest s).players_facing_raise ↔
           facedRaiseSpec (pre ++ rest) p = true)) := by
  induction rest with
  | nil =>
    intro pre s h1 h2 h3 h4
    simpa using ⟨h1, h2, h3, h4⟩
  | cons a rest ih =>
    intro pre s h1 h2 h3 h4
    obtain ⟨g1, g2, g3, g4⟩ := preflopStep_inv pre s a h1 h2 h3 h4
    have hh := ih (pre ++ [a]) (preflopStep pre s a) g1 g2 g3 g4
    show (preflopScanGo (pre ++ [a]) rest (preflopStep pre s a)).raise_count = _
      ∧ _
    simpa [List.append_assoc] using hh

/-- Closed form of the preflop scan: raise count, first raiser (who is always
invested), and the facing-raise set. -/
theorem preflopScan_inv (acts : List Action) :
    (preflopScan acts).raise_count = liveRaises acts
    ∧ (preflopScan acts).first_raiser = firstLiveRaiser acts
    ∧ (∀ f, (preflopScan acts).first_raiser = some f →
        f ∈ (preflopScan acts).players_invested)
    ∧ (∀ p, p ∈ (preflopScan acts).players_facing_raise ↔
        facedRaiseSpec acts p = true) := by
  have h := preflopScanGo_inv acts [] initPreScan rfl rfl
    (by intro f hf; simp [initPreScan] at hf)
    (by intro p; simp [initPreScan, facedRaiseSpec_nil])
  simpa using h

/-! ## Closed forms for the per-player credit loops -/

theorem bump_inc (P : Counters → Nat) {g : Counters → Counters}
    (hg : ∀ c, P (g c) = P c + 1) (st : Stats) (u v : String) :
    P (bump st u g v) = P (st v) + (if v = u then 1 else 0) := by
  rw [bump_apply]
  split <;> simp [hg]

theorem foldl_proj_count {α : Type} (P : Counters → Nat)
    (step : Stats → α → Stats) (ind : α → String → Bool)
    (hstep : ∀ st a v, P (step st a v) = P (st v) + (if ind a v then 1 else 0)) :
    ∀ (l : List α) (st : Stats) (v : String),
      P ((l.foldl step st) v) = P (st v) + l.countP (fun a => ind a v) := by
  intro l
  induction l with
  | nil => intro st v; simp
  | cons a l ih =>
    intro st v
    rw [List.foldl_cons, ih, hstep, List.countP_cons]
    by_cases hc : ind a v = true
    · simp [hc]
      try omega
    · simp [hc]
      try omega

theorem creditPreflopOne_faced_raise (ps : PreScan) (unify : String → String)
    (st : Stats) (p v : String) :
    (creditPreflopOne ps unify st p v).faced_raise_count
      = (st v).faced_raise_count
        + (if (p ∈ ps.players_facing_raise ∧ unify p = v : Prop) then 1 else 0) := by
  by_cases hv : v = unify p
  · subst hv
    unfold creditPreflopOne
    split_ifs <;>
      simp_all [bump_apply, incVpip, incPfr, incFacedRaise, incThreebets,
        incFaced3bet, incFourbets, incCalled3bet]
  · have hv2 : ¬ (unify p = v) := fun h => hv h.symm
    unfold creditPreflopOne
    split_ifs <;>
      simp_all [bump_apply, incVpip, incPfr, incFacedRaise, incThreebets,
        incFaced3bet, incFourbets, incCalled3bet]

theorem creditPreflopOne_vpip (ps : PreScan) (unify : String → String)
    (st : Stats) (p v : String) :
    (creditPreflopOne ps unify st p v).vpip_count
      = (st v).vpip_count
        + (if (p ∈ ps.players_invested ∧ unify p = v : Prop) then 1 else 0) := by
  by_cases hv : v = unify p
  · subst hv
    unfold creditPreflopOne
    split_ifs <;>
      simp_all [bump_apply, incVpip, incPfr, incFacedRaise, incThreebets,
        incFaced3bet, incFourbets, incCalled3bet]
  · have hv2 : ¬ (unify p = v) := fun h => hv h.symm
    unfold creditPreflopOne
    split_ifs <;>
      simp_all [bump_apply, incVpip, incPfr, incFacedRaise, incThreebets,
        incFaced3bet, incFourbets, incCalled3bet]

theorem creditPreflopOne_pfr (ps : PreScan) (unify : String → String)
    (st : Stats) (p v : String) :
    (creditPreflopOne ps unify st p v).pfr_count
      = (st v).pfr_count
        + (if (some p = ps.first_raiser ∧ unify p = v : Prop) then 1 else 0) := by
  by_cases hv : v = unify p
  · subst hv
    unfold creditPreflopOne
    split_ifs <;>
      simp_all [bump_apply, incVpip, incPfr, incFacedRaise, incThreebets,
        incFaced3bet, incFourbets, incCalled3bet]
  · have hv2 : ¬ (unify p = v) := fun h => hv h.symm
    unfold creditPreflopOne
    split_ifs <;>
      simp_all [bump_apply, incVpip, incPfr, incFacedRaise, incThreebets,
        incFaced3bet, incFourbets, incCalled3bet]

/-- `_analyze_preflop_detailed`, `faced_raise_count` delta. -/
theorem analyzePreflopDetailed_faced_raise (h : Hand)
    (unify : String → String) (st : Stats) (v : String) :
    (analyzePreflopDetailed h unify st v).faced_raise_count
      = (st v).faced_raise_count
        + (h.players.map Prod.fst).countP
            (fun p => facedRaiseSpec h.preflop_actions p && (unify p == v)) := by
  unfold analyzePreflopDetailed
  rw [foldl_proj_count (fun c => c.faced_raise_count) _
    (fun p v => facedRaiseSpec h.preflop_actions p && (unify p == v))]
  intro st2 p v2
  rw [creditPreflopOne_faced_raise]
  congr 1
  have hiff := (preflopScan_inv h.preflop_actions).2.2.2 p
  by_cases h1 : p ∈ (preflopScan h.preflop_actions).players_facing_raise <;>
    by_cases h2 : unify p = v2 <;>
    simp_all

/-- `_analyze_preflop_detailed`, `vpip_count` delta. -/
theorem analyzePreflopDetailed_vpip (h : Hand)
    (unify : String → String) (st : Stats) (v : String) :
    (analyzePreflopDetailed h unify st v).vpip_count
      = (st v).vpip_count
        + (h.players.map Prod.fst).countP
            (fun p =>
              decide (p ∈ (preflopScan h.preflop_actions).players_invested)
                && (unify p == v)) := by
  unfold analyzePreflopDetailed
  rw [foldl_proj_count (fun c => c.vpip_count) _
    (fun p v =>
      decide (p ∈ (preflopScan h.preflop_actions).players_invested)
        && (unify p == v))]
  intro st2 p v2
  rw [creditPreflopOne_vpip]
  congr 1
  by_cases h1 : p ∈ (preflopScan h.preflop_actions).players_invested <;>
    by_cases h2 : unify p = v2 <;>
    simp_all

/-- `_analyze_preflop_detailed`, `pfr_count` delta. -/
theorem analyzePreflopDetailed_pfr (h : Hand)
    (unify : String → String) (st : Stats) (v : String) :
    (analyzePreflopDetailed h unify st v).pfr_count
      = (st v).pfr_count
        + (h.players.map Prod.fst).countP
            (fun p =>
              (some p == firstLiveRaiser h.preflop_actions) && (unify p == v)) := by
  unfold analyzePreflopDetailed
  rw [foldl_proj_count (fun c => c.pfr_count) _
    (fun p v =>
      (some p == firstLiveRaiser h.preflop_actions) && (unify p == v))]
  intro st2 p v2
  rw [creditPreflopOne_pfr]
  congr 1
  have hfr := (preflopScan_inv h.preflop_actions).2.1
  rw [hfr]
  by_cases h1 : some p = firstLiveRaiser h.preflop_actions <;>
    by_cases h2 : unify p = v2 <;>
    simp_all

theorem firstLiveRaiser_eq_find (l : List Action)
    (hwf : ∀ a ∈ l, a.player ≠ "") :
    firstLiveRaiser l
      = (l.find? (fun a => a.kind == AKind.raise)).map (fun a => a.player) := by
  induction l with
  | nil => rfl
  | cons a l ih =>
    have ha := hwf a (List.mem_cons_self a l)
    have ihh := ih (fun x hx => hwf x (List.mem_cons_of_mem a hx))
    by_cases hk : a.kind = AKind.raise
    · have hlive : isLiveRaise a = true := by simp [isLiveRaise, ha, hk]
      simp [firstLiveRaiser, liveRaisePlayers, List.filter_cons, hlive,
        List.find?_cons, hk]
    · have hlive : isLiveRaise a = false := by simp [isLiveRaise, ha, hk]
      simp only [firstLiveRaiser, liveRaisePlayers, List.filter_cons, hlive,
        List.find?_cons, if_false]
      rw [show ((a.kind == AKind.raise) : Bool) = false by simp [hk]]
      simpa [firstLiveRaiser, liveRaisePlayers] using ihh

/-! ## Claim C1: Scenario A and the faced-raise rule -/

/-- **C1 counterexample.**  On Scenario A's preflop
`[P1 raises to 30, P2 raises to 90, P3 folds, P1 calls]`, `P3`'s
`faced_raise_count` does not increment (the claim asserts it increments for
both `P2` and `P3`): the analyzer never adds players whose action after
raise #1 is a fold. -/
theorem c1_scenarioA_P3_not_counted :
    ((analyzePreflopDetailed handA idU zeroStats) "P3").faced_raise_count = 0
    ∧ ((analyzePreflopDetailed handA idU zeroStats) "P2").faced_raise_count
        = 1 := by
  constructor <;> rfl

/-- **C1 (amended).**  A player's `faced_raise_count` increments exactly once
for each player entry of the hand satisfying `facedRaiseSpec`: they acted
(with any action) strictly before preflop raise #1 and are not its maker, or
they called while exactly one raise had occurred, or they made raise #2.
Acting after raise #1 with a fold or check does not count.  In Scenario A
this credits `faced_raise_count` only to `P2`; PFR goes to `P1`; `threebets`
is credited only to `P2`; `faced_3bet_count` and `called_3bet` increment for
`P1`; `fourbets` stays 0 for everyone. -/
theorem faced_raise_characterization :
    (∀ (h : Hand) (unify : String → String) (st : Stats) (v : String),
      (analyzePreflopDetailed h unify st v).faced_raise_count
        = (st v).faced_raise_count
          + (h.players.map Prod.fst).countP
              (fun p => facedRaiseSpec h.preflop_actions p && (unify p == v)))
    ∧ (((analyzePreflopDetailed handA idU zeroStats) "P1").pfr_count = 1
       ∧ ((analyzePreflopDetailed handA idU zeroStats) "P2").pfr_count = 0
       ∧ ((analyzePreflopDetailed handA idU zeroStats) "P3").pfr_count = 0
       ∧ ((analyzePreflopDetailed handA idU zeroStats) "P1").faced_raise_count = 0
       ∧ ((analyzePreflopDetailed handA idU zeroStats) "P2").faced_raise_count = 1
       ∧ ((analyzePreflopDetailed handA idU zeroStats) "P3").faced_raise_count = 0
       ∧ ((analyzePreflopDetailed handA idU zeroStats) "P1").threebets = 0
       ∧ ((analyzePreflopDetailed handA idU zeroStats) "P2").threebets = 1
       ∧ ((analyzePreflopDetailed handA idU zeroStats) "P3").threebets = 0
       ∧ ((analyzePreflopDetailed handA idU zeroStats) "P1").faced_3bet_count = 1
       ∧ ((analyzePreflopDetailed handA idU zeroStats) "P2").faced_3bet_count = 0
       ∧ ((analyzePreflopDetailed handA idU zeroStats) "P3").faced_3bet_count = 0
       ∧ ((analyzePreflopDetailed handA idU zeroStats) "P1").called_3bet = 1
       ∧ ((analyzePreflopDetailed handA idU zeroStats) "P1").fourbets = 0
       ∧ ((analyzePreflopDetailed handA idU zeroStats) "P2").fourbets = 0
       ∧ ((analyzePreflopDetailed handA idU zeroStats) "P3").fourbets = 0) :=
  ⟨analyzePreflopDetailed_faced_raise, by decide⟩

/-! ## Claim C5: PFR is unique and goes to the first raiser -/

/-- **C5.**  For a hand with duplicate-free player keys and non-empty action
players (both guaranteed by the log parser): if the preflop list contains no
raise, nobody's `pfr_count` changes; if its first raise is action `r`, only
`unify r.player` can gain a `pfr_count` credit, and gains at most one. -/
theorem pfr_unique_first_raiser (h : Hand) (unify : String → String)
    (st : Stats) (hnd : (h.players.map Prod.fst).Nodup)
    (hwf : ∀ a ∈ h.preflop_actions, a.player ≠ "") :
    ((h.preflop_actions.find? (fun a => a.kind == AKind.raise)) = none →
      ∀ v, (analyzePreflopDetailed h unify st v).pfr_count = (st v).pfr_count)
    ∧ (∀ r, (h.preflop_actions.find? (fun a => a.kind == AKind.raise)) = some r →
        (∀ v, v ≠ unify r.player →
          (analyzePreflopDetailed h unify st v).pfr_count = (st v).pfr_count)
        ∧ (analyzePreflopDetailed h unify st (unify r.player)).pfr_count
            ≤ (st (unify r.player)).pfr_count + 1) := by
  have hfl := firstLiveRaiser_eq_find h.preflop_actions hwf
  constructor
  · intro hnone v
    rw [analyzePreflopDetailed_pfr]
    rw [show (h.players.map Prod.fst).countP
        (fun p => (some p == firstLiveRaiser h.preflop_actions)
          && (unify p == v)) = 0 from ?_]
    · rfl
    · rw [List.countP_eq_zero]
      intro p _
      rw [hfl, hnone]
      simp
  · intro r hsome
    have hfr : firstLiveRaiser h.preflop_actions = some r.player := by
      rw [hfl, hsome]
      rfl
    constructor
    · intro v hv
      rw [analyzePreflopDetailed_pfr]
      rw [show (h.players.map Prod.fst).countP
          (fun p => (some p == firstLiveRaiser h.preflop_actions)
            && (unify p == v)) = 0 from ?_]
      · rfl
      · rw [List.countP_eq_zero]
        intro p _
        rw [hfr]
        simp only [Bool.and_eq_true, beq_iff_eq, Option.some.injEq, not_and]
        rintro rfl h2
        exact hv h2.symm
    · rw [analyzePreflopDetailed_pfr]
      have h1 : (h.players.map Prod.fst).countP
          (fun p => (some p == firstLiveRaiser h.preflop_actions)
            && (unify p == unify r.player))
          ≤ (h.players.map Prod.fst).countP (fun p => p == r.player) := by
        apply List.countP_mono_left
        intro p _ hp
        rw [hfr] at hp
        simp only [Bool.and_eq_true, beq_iff_eq, Option.some.injEq] at hp
        simp [hp.1]
      have h2 : (h.players.map Prod.fst).countP (fun p => p == r.player)
          = (h.players.map Prod.fst).count r.player := rfl
      have h3 : (h.players.map Prod.fst).count r.player ≤ 1 :=
        List.nodup_iff_count_le_one.mp hnd r.player
      omega

/-- Witness for C5 at Scenario A (first raise by `P1`). -/
theorem pfr_unique_first_raiser_witness :
    ((handA.players.map Prod.fst).Nodup
      ∧ (∀ a ∈ handA.preflop_actions, a.player ≠ ""))
    ∧ (((handA.preflop_actions.find? (fun a => a.kind == AKind.raise)) = none →
        ∀ v, (analyzePreflopDetailed handA idU zeroStats v).pfr_count
          = (zeroStats v).pfr_count)
      ∧ (∀ r, (handA.preflop_actions.find? (fun a => a.kind == AKind.raise))
            = some r →
          (∀ v, v ≠ idU r.player →
            (analyzePreflopDetailed handA idU zeroStats v).pfr_count
              = (zeroStats v).pfr_count)
          ∧ (analyzePreflopDetailed handA idU zeroStats (idU r.player)).pfr_count
              ≤ (zeroStats (idU r.player)).pfr_count + 1)) :=
  ⟨⟨by decide, by decide⟩,
   pfr_unique_first_raiser handA idU zeroStats (by decide) (by decide)⟩

/-! ## Preservation lemmas for the postflop pipeline

A counter projection left fixed by every counter map a piece applies is left
fixed by the piece. -/

theorem handsPlayedLoop_pres {β : Type} (P : Counters → β)
    (hP : ∀ c, P (incHandsPlayed c) = P c) (h : Hand)
    (unify : String → String) (st : Stats) (v : String) :
    P (handsPlayedLoop h unify st v) = P (st v) := by
  unfold handsPlayedLoop
  exact foldl_stats_pres P _ (fun st2 p v2 => bump_pres P hP st2 _ v2) _ st v

theorem showdownLoop_pres {β : Type} (P : Counters → β)
    (hP : ∀ c, P (incShowdown c) = P c) (h : Hand)
    (unify : String → String) (st : Stats) (v : String) :
    P (showdownLoop h unify st v) = P (st v) := by
  unfold showdownLoop
  apply foldl_stats_pres
  intro st2 pd v2
  split
  · exact bump_pres P hP st2 _ v2
  · rfl

theorem creditPreflopOne_pres {β : Type} (P : Counters → β) (ps : PreScan)
    (unify : String → String)
    (h1 : ∀ c, P (incVpip c) = P c) (h2 : ∀ c, P (incPfr c) = P c)
    (h3 : ∀ c, P (incFacedRaise c) = P c) (h4 : ∀ c, P (incThreebets c) = P c)
    (h5 : ∀ c, P (incFaced3bet c) = P c) (h6 : ∀ c, P (incFourbets c) = P c)
    (h7 : ∀ c, P (incCalled3bet c) = P c)
    (st : Stats) (p v : String) :
    P (creditPreflopOne ps unify st p v) = P (st v) := by
  unfold creditPreflopOne
  split_ifs <;>
    simp [bump_pres P h1, bump_pres P h2, bump_pres P h3, bump_pres P h4,
      bump_pres P h5, bump_pres P h6, bump_pres P h7]

theorem analyzePreflopDetailed_pres {β : Type} (P : Counters → β)
    (h1 : ∀ c, P (incVpip c) = P c) (h2 : ∀ c, P (incPfr c) = P c)
    (h3 : ∀ c, P (incFacedRaise c) = P c) (h4 : ∀ c, P (incThreebets c) = P c)
    (h5 : ∀ c, P (incFaced3bet c) = P c) (h6 : ∀ c, P (incFourbets c) = P c)
    (h7 : ∀ c, P (incCalled3bet c) = P c)
    (h : Hand) (unify : String → String) (st : Stats) (v : String) :
    P (analyzePreflopDetailed h unify st v) = P (st v) := by
  unfold analyzePreflopDetailed
  apply foldl_stats_pres
  intro st2 p v2
  exact creditPreflopOne_pres P _ unify h1 h2 h3 h4 h5 h6 h7 st2 p v2

theorem flopHandsLoop_pres {β : Type} (P : Counters → β)
    (hP : ∀ c, P (incFlopHands c) = P c) (h : Hand)
    (unify : String → String) (st : Stats) (v : String) :
    P (flopHandsLoop h unify st v) = P (st v) := by
  unfold flopHandsLoop
  apply foldl_stats_pres
  intro st2 p v2
  split
  · exact bump_pres P hP st2 _ v2
  · rfl

theorem flopTrack_st (r : FlopScanR) (a : Action) : (flopTrack r a).st = r.st := by
  unfold flopTrack
  split_ifs <;> rfl

theorem flopTrack_first_bettor (r : FlopScanR) (a : Action) :
    (flopTrack r a).first_bettor = r.first_bettor := by
  unfold flopTrack
  split_ifs <;> rfl

theorem donkCredit_st_pres {β : Type} (P : Counters → β)
    (hP : ∀ c, P (incDonkBoth c) = P c) (agg : Option String)
    (players : List (String × PlayerData)) (unify : String → String)
    (r : FlopScanR) (a : Action) (v : String) :
    P ((donkCredit agg players unify r a).st v) = P (r.st v) := by
  unfold donkCredit
  cases agg with
  | none => rfl
  | some ag =>
    dsimp only
    by_cases h1 : ag ≠ "" ∧ a.player ≠ ag
    · rw [if_pos h1]
      by_cases h2 : memKeys players a.player = true ∧ unify a.player ≠ ""
      · rw [if_pos h2]
        exact bump_pres P hP r.st _ v
      · rw [if_neg h2]
    · rw [if_neg h1]

theorem flopScanGo_st_pres {β : Type} (P : Counters → β)
    (hP : ∀ c, P (incDonkBoth c) = P c) (agg : Option String)
    (players : List (String × PlayerData)) (unify : String → String) :
    ∀ (acts : List Action) (r : FlopScanR) (v : String),
      P ((flopScanGo agg players unify acts r).st v) = P (r.st v) := by
  intro acts
  induction acts with
  | nil => intro r v; rfl
  | cons a rest ih =>
    intro r v
    by_cases hp : a.player = ""
    · unfold flopScanGo
      rw [if_pos hp]
      exact ih r v
    · unfold flopScanGo
      rw [if_neg hp]
      show P ((if (a.kind = AKind.bet ∨ a.kind = AKind.raise) ∧
            (flopTrack r a).first_bettor = none then
          donkCredit agg players unify
            { flopTrack r a with first_bettor := some a.player } a
        else flopScanGo agg players unify rest (flopTrack r a)).st v)
        = P (r.st v)
      split_ifs with hbet
      · rw [donkCredit_st_pres P hP]
        rw [show ({ flopTrack r a with first_bettor := some a.player }
            : FlopScanR).st = (flopTrack r a).st from rfl, flopTrack_st]
      · rw [ih, flopTrack_st]

theorem donkOppLoop_pres {β : Type} (P : Counters → β)
    (hP : ∀ c, P (incDonkOpp c) = P c) (h : Hand) (unify : String → String)
    (agg : Option String) (st : Stats) (v : String) :
    P (donkOppLoop h unify agg st v) = P (st v) := by
  unfold donkOppLoop
  cases agg with
  | none => rfl
  | some a =>
    dsimp only
    split_ifs
    · rfl
    · apply foldl_stats_pres
      intro st2 p v2
      split
      · exact bump_pres P hP st2 _ v2
      · rfl

theorem bwctLoop_pres {β : Type} (P : Counters → β)
    (hP : ∀ b c, P (incBwct b c) = P c) (h : Hand) (unify : String → String)
    (agg : Option String) (checked : List String) (st : Stats) (v : String) :
    P (bwctLoop h unify agg checked st v) = P (st v) := by
  unfold bwctLoop
  cases agg with
  | none => rfl
  | some a =>
    dsimp only
    split_ifs
    · apply foldl_stats_pres
      intro st2 p v2
      split
      · cases bwctFind a p false h.flop_actions with
        | some act => exact bump_pres P (hP _) st2 _ v2
        | none => rfl
      · rfl
    · rfl

theorem checkRaiseGo_pres {β : Type} (P : Counters → β)
    (hP : ∀ b c, P (incCheckRaise b c) = P c)
    (players : List (String × PlayerData)) (unify : String → String) :
    ∀ (acts : List Action) (st : Stats) (v : String),
      P (checkRaiseGo players unify acts st v) = P (st v) := by
  intro acts
  induction acts with
  | nil => intro st v; rfl
  | cons a rest ih =>
    intro st v
    unfold checkRaiseGo
    rw [ih]
    split
    · split
      · exact bump_pres P (hP _) st _ v
      · rfl
    · rfl

theorem cbetSection_pres {β : Type} (P : Counters → β)
    (hA : ∀ c, P (inc3betOppCbetAfter c) = P c)
    (hB : ∀ c, P (incCbetOppMade c) = P c)
    (hC : ∀ b c, P (respondCbet b c) = P c)
    (hD : ∀ c, P (inc3betOppCheckAfter c) = P c)
    (hE : ∀ c, P (inc3betPotOpp c) = P c)
    (hF : ∀ c, P (incCheckAfter3bet c) = P c)
    (hG : ∀ c, P (incCbetOpp c) = P c)
    (h : Hand) (unify : String → String) (agg : Option String) (is3 : Bool)
    (fs : FlopScanR) (st' : Stats) (b : Bool)
    (heq : cbetSection h unify agg is3 fs = some (st', b)) (v : String) :
    P (st' v) = P (fs.st v) := by
  unfold cbetSection at heq
  cases agg with
  | none =>
    simp only [Option.some.injEq, Prod.mk.injEq] at heq
    rw [← heq.1]
  | some a =>
    dsimp only at heq
    by_cases h1 : a = ""
    · rw [if_pos h1] at heq
      simp only [Option.some.injEq, Prod.mk.injEq] at heq
      rw [← heq.1]
    · rw [if_neg h1] at heq
      by_cases h2 : memKeys h.players a = true ∧ unify a ≠ "" ∧
          a ∈ actors h.flop_actions
      · rw [if_pos h2] at heq
        by_cases h3 : fs.first_bettor = some a
        · rw [if_pos h3] at heq
          have hst2 : ∀ w, P ((if is3 = true then
              bump fs.st (unify a) inc3betOppCbetAfter
              else bump fs.st (unify a) incCbetOppMade) w) = P (fs.st w) := by
            intro w
            split
            · exact bump_pres P hA fs.st _ w
            · exact bump_pres P hB fs.st _ w
          revert heq
          cases hresp : firstResponder a h.flop_actions with
          | none =>
            intro heq
            dsimp only at heq
            simp only [Option.some.injEq, Prod.mk.injEq] at heq
            rw [← heq.1]
            exact hst2 v
          | some r =>
            intro heq
            dsimp only at heq
            by_cases hmem : memKeys h.players r.player = true
            · rw [if_pos hmem] at heq
              simp only [Option.some.injEq, Prod.mk.injEq] at heq
              rw [← heq.1, bump_pres P (hC _)]
              exact hst2 v
            · rw [if_neg hmem] at heq
              simp at heq
        · rw [if_neg h3] at heq
          by_cases h4 : fs.first_actor = some a ∧
              fs.first_type = some AKind.check ∧ is3 = true
          · rw [if_pos h4] at heq
            simp only [Option.some.injEq, Prod.mk.injEq] at heq
            rw [← heq.1, bump_pres P hD]
          · rw [if_neg h4] at heq
            by_cases h5 : fs.first_bettor ≠ some a
            · rw [if_pos h5] at heq
              by_cases h6 : is3 = true
              · rw [if_pos h6] at heq
                by_cases h7 : a ∈ fs.checked
                · rw [if_pos h7] at heq
                  simp only [Option.some.injEq, Prod.mk.injEq] at heq
                  rw [← heq.1, bump_pres P hF, bump_pres P hE]
                · rw [if_neg h7] at heq
                  simp only [Option.some.injEq, Prod.mk.injEq] at heq
                  rw [← heq.1, bump_pres P hE]
              · rw [if_neg h6] at heq
                simp only [Option.some.injEq, Prod.mk.injEq] at heq
                rw [← heq.1, bump_pres P hG]
            · rw [if_neg h5] at heq
              simp only [Option.some.injEq, Prod.mk.injEq] at heq
              rw [← heq.1]
      · rw [if_neg h2] at heq
        simp only [Option.some.injEq, Prod.mk.injEq] at heq
        rw [← heq.1]

theorem turnSection_pres {β : Type} (P : Counters → β)
    (hA : ∀ c, P (incTurnHands c) = P c)
    (hB : ∀ c, P (incTurnOppMade c) = P c)
    (hC : ∀ b c, P (respondTurnCbet b c) = P c)
    (hD : ∀ c, P (incTurnOpp c) = P c)
    (h : Hand) (unify : String → String) (agg : Option String)
    (st st' : Stats) (heq : turnSection h unify agg st = some st')
    (v : String) :
    P (st' v) = P (st v) := by
  unfold turnSection at heq
  dsimp only at heq
  have hloop : ∀ (st2 : Stats) (v2 : String),
      P (((h.players.map Prod.fst).foldl
        (fun st p =>
          if p ∈ actors h.turn_actions ∧ unify p ≠ "" then
            bump st (unify p) incTurnHands
          else st) st2) v2) = P (st2 v2) := by
    intro st2 v2
    apply foldl_stats_pres
    intro st3 p v3
    split
    · exact bump_pres P hA st3 _ v3
    · rfl
  by_cases h1 : agg = turnFirstAggressor h.turn_actions
  · rw [if_pos h1] at heq
    cases agg with
    | some a =>
      dsimp only at heq
      by_cases h2 : memKeys h.players a = true ∧ unify a ≠ ""
      · rw [if_pos h2] at heq
        revert heq
        cases hresp : firstResponder a h.turn_actions with
        | none =>
          intro heq
          dsimp only at heq
          simp only [Option.some.injEq] at heq
          rw [← heq, bump_pres P hB, hloop]
        | some r =>
          intro heq
          dsimp only at heq
          by_cases hmem : memKeys h.players r.player = true
          · rw [if_pos hmem] at heq
            simp only [Option.some.injEq] at heq
            rw [← heq, bump_pres P (hC _), bump_pres P hB, hloop]
          · rw [if_neg hmem] at heq
            simp at heq
      · rw [if_neg h2] at heq
        simp only [Option.some.injEq] at heq
        rw [← heq, hloop]
    | none =>
      dsimp only at heq
      simp only [Option.some.injEq] at heq
      rw [← heq, hloop]
  · rw [if_neg h1] at heq
    cases agg with
    | some a =>
      dsimp only at heq
      by_cases h2 : a ≠ "" ∧ a ∈ actors h.turn_actions
      · rw [if_pos h2] at heq
        by_cases h3 : memKeys h.players a = true ∧ unify a ≠ ""
        · rw [if_pos h3] at heq
          simp only [Option.some.injEq] at heq
          rw [← heq, bump_pres P hD, hloop]
        · rw [if_neg h3] at heq
          simp only [Option.some.injEq] at heq
          rw [← heq, hloop]
      · rw [if_neg h2] at heq
        simp only [Option.some.injEq] at heq
        rw [← heq, hloop]
    | none =>
      dsimp only at heq
      simp only [Option.some.injEq] at heq
      rw [← heq, hloop]

/-- Decomposition of `_analyze_postflop_detailed` into its pipeline stages. -/
theorem analyzePostflopDetailed_decomp (h : Hand) (unify : String → String)
    (st st' : Stats)
    (heq : analyzePostflopDetailed h unify st = some st') :
    (h.flop_actions = [] ∧ st' = st)
    ∨ (h.flop_actions ≠ [] ∧
       ∃ (st1 : Stats) (b : Bool),
         cbetSection h unify (aggressorOf h) (is3betPot h)
             (flopScanGo (aggressorOf h) h.players unify h.flop_actions
               (initFlopScan (flopHandsLoop h unify st))) = some (st1, b)
         ∧ ((b = true ∧ h.turn_actions ≠ [] ∧
              turnSection h unify (aggressorOf h)
                (checkRaiseGo h.players unify h.flop_actions
                  (bwctLoop h unify (aggressorOf h)
                    (flopScanGo (aggressorOf h) h.players unify h.flop_actions
                      (initFlopScan (flopHandsLoop h unify st))).checked
                    (donkOppLoop h unify (aggressorOf h) st1))) = some st')
            ∨ (¬(b = true ∧ h.turn_actions ≠ []) ∧
               st' = checkRaiseGo h.players unify h.flop_actions
                 (bwctLoop h unify (aggressorOf h)
                   (flopScanGo (aggressorOf h) h.players unify h.flop_actions
                     (initFlopScan (flopHandsLoop h unify st))).checked
                   (donkOppLoop h unify (aggressorOf h) st1))))) := by
  unfold analyzePostflopDetailed at heq
  split_ifs at heq with hflop
  · left
    refine ⟨hflop, ?_⟩
    simp only [Option.some.injEq] at heq
    exact heq.symm
  · right
    refine ⟨hflop, ?_⟩
    dsimp only at heq
    cases hcb : cbetSection h unify (aggressorOf h) (is3betPot h)
        (flopScanGo (aggressorOf h) h.players unify h.flop_actions
          (initFlopScan (flopHandsLoop h unify st))) with
    | none =>
      rw [hcb] at heq
      simp at heq
    | some pr =>
      obtain ⟨st1, b⟩ := pr
      rw [hcb] at heq
      dsimp only at heq
      refine ⟨st1, b, rfl, ?_⟩
      by_cases hturn : b = true ∧ h.turn_actions ≠ []
      · left
        rw [if_pos hturn] at heq
        exact ⟨hturn.1, hturn.2, heq⟩
      · right
        rw [if_neg hturn] at heq
        simp only [Option.some.injEq] at heq
        exact ⟨hturn, heq.symm⟩

theorem donkCredit_first_bettor (agg : Option String)
    (players : List (String × PlayerData)) (unify : String → String)
    (r : FlopScanR) (a : Action) :
    (donkCredit agg players unify r a).first_bettor = r.first_bettor := by
  unfold donkCredit
  cases agg with
  | none => rfl
  | some ag =>
    dsimp only
    split_ifs <;> rfl

theorem flopScanGo_first_bettor (agg : Option String)
    (players : List (String × PlayerData)) (unify : String → String) :
    ∀ (acts : List Action) (r : FlopScanR), r.first_bettor = none →
      (flopScanGo agg players unify acts r).first_bettor
        = flopFirstBettor acts := by
  intro acts
  induction acts with
  | nil =>
    intro r hr
    exact hr
  | cons a rest ih =>
    intro r hr
    by_cases hp : a.player = ""
    · have hff : flopFirstBettor (a :: rest) = flopFirstBettor rest := by
        unfold flopFirstBettor
        rw [List.find?_cons,
          show (a.player != "" && (a.kind == AKind.bet || a.kind == AKind.raise))
            = false by simp [hp]]
      unfold flopScanGo
      rw [if_pos hp, hff]
      exact ih r hr
    · have htr : (flopTrack r a).first_bettor = none := by
        rw [flopTrack_first_bettor, hr]
      by_cases hbet : a.kind = AKind.bet ∨ a.kind = AKind.raise
      · have hff : flopFirstBettor (a :: rest) = some a.player := by
          unfold flopFirstBettor
          rw [List.find?_cons,
            show (a.player != "" && (a.kind == AKind.bet || a.kind == AKind.raise))
              = true by rcases hbet with hb | hb <;> simp [hp, hb]]
          rfl
        unfold flopScanGo
        rw [if_neg hp]
        dsimp only
        rw [if_pos ⟨hbet, htr⟩, donkCredit_first_bettor, hff]
      · have hff : flopFirstBettor (a :: rest) = flopFirstBettor rest := by
          unfold flopFirstBettor
          rw [List.find?_cons,
            show (a.player != "" && (a.kind == AKind.bet || a.kind == AKind.raise))
              = false by cases hk : a.kind <;> simp_all]
        unfold flopScanGo
        rw [if_neg hp]
        dsimp only
        rw [if_neg (by tauto), hff]
        exact ih _ htr

theorem flopScanGo_donk (agg : Option String)
    (players : List (String × PlayerData)) (unify : String → String) :
    ∀ (acts : List Action) (r : FlopScanR), r.first_bettor = none →
      ∀ v,
        (((flopScanGo agg players unify acts r).st v).donk_bet_opportunities
          = ((r.st v).donk_bet_opportunities
            + (if (donkBettor agg players unify acts).map unify = some v
               then 1 else 0)))
        ∧ (((flopScanGo agg players unify acts r).st v).donk_bets_made
          = ((r.st v).donk_bets_made
            + (if (donkBettor agg players unify acts).map unify = some v
               then 1 else 0))) := by
  intro acts
  induction acts with
  | nil =>
    intro r hr v
    simp [flopScanGo, donkBettor, flopFirstBettor]
  | cons a rest ih =>
    intro r hr v
    by_cases hp : a.player = ""
    · have hff : flopFirstBettor (a :: rest) = flopFirstBettor rest := by
        unfold flopFirstBettor
        rw [List.find?_cons,
          show (a.player != "" && (a.kind == AKind.bet || a.kind == AKind.raise))
            = false by simp [hp]]
      have hdb : donkBettor agg players unify (a :: rest)
          = donkBettor agg players unify rest := by
        unfold donkBettor
        rw [hff]
      unfold flopScanGo
      rw [if_pos hp, hdb]
      exact ih r hr v
    · have htr : (flopTrack r a).first_bettor = none := by
        rw [flopTrack_first_bettor, hr]
      by_cases hbet : a.kind = AKind.bet ∨ a.kind = AKind.raise
      · have hff : flopFirstBettor (a :: rest) = some a.player := by
          unfold flopFirstBettor
          rw [List.find?_cons,
            show (a.player != "" && (a.kind == AKind.bet || a.kind == AKind.raise))
              = true by rcases hbet with hb | hb <;> simp [hp, hb]]
          rfl
        have hst : ∀ (q : FlopScanR), q.st = (flopTrack r a).st →
            ((donkCredit agg players unify q a).st v).donk_bet_opportunities
              = ((r.st v).donk_bet_opportunities
                + (if (donkBettor agg players unify (a :: rest)).map unify
                    = some v then 1 else 0))
            ∧ ((donkCredit agg players unify q a).st v).donk_bets_made
              = ((r.st v).donk_bets_made
                + (if (donkBettor agg players unify (a :: rest)).map unify
                    = some v then 1 else 0)) := by
          intro q hq
          unfold donkCredit donkBettor
          rw [hff]
          cases agg with
          | none => simp [hq, flopTrack_st]
          | some ag =>
            dsimp only
            by_cases h1 : ag ≠ "" ∧ a.player ≠ ag
            · by_cases h2 : memKeys players a.player = true ∧ unify a.player ≠ ""
              · have h3 : ag ≠ "" ∧ a.player ≠ ag ∧
                    memKeys players a.player = true ∧ unify a.player ≠ "" :=
                  ⟨h1.1, h1.2, h2.1, h2.2⟩
                rw [if_pos h1, if_pos h2, if_pos h3]
                dsimp only
                rw [hq, flopTrack_st]
                constructor
                · rw [bump_inc (fun c => c.donk_bet_opportunities)
                    (fun c => rfl) r.st (unify a.player) v]
                  by_cases hv : v = unify a.player
                  · simp [hv]
                  · simp [hv, Ne.symm hv]
                · rw [bump_inc (fun c => c.donk_bets_made)
                    (fun c => rfl) r.st (unify a.player) v]
                  by_cases hv : v = unify a.player
                  · simp [hv]
                  · simp [hv, Ne.symm hv]
              · have hC : ¬(ag ≠ "" ∧ a.player ≠ ag ∧
                    memKeys players a.player = true ∧ unify a.player ≠ "") :=
                  fun hc => h2 ⟨hc.2.2.1, hc.2.2.2⟩
                rw [if_pos h1, if_neg h2, if_neg hC]
                simp [hq, flopTrack_st]
            · have hC : ¬(ag ≠ "" ∧ a.player ≠ ag ∧
                  memKeys players a.player = true ∧ unify a.player ≠ "") :=
                fun hc => h1 ⟨hc.1, hc.2.1⟩
              rw [if_neg h1, if_neg hC]
              simp [hq, flopTrack_st]
        unfold flopScanGo
        rw [if_neg hp]
        dsimp only
        rw [if_pos ⟨hbet, htr⟩]
        exact hst _ rfl
      · have hff : flopFirstBettor (a :: rest) = flopFirstBettor rest := by
          unfold flopFirstBettor
          rw [List.find?_cons,
            show (a.player != "" && (a.kind == AKind.bet || a.kind == AKind.raise))
              = false by cases hk : a.kind <;> simp_all]
        have hdb : donkBettor agg players unify (a :: rest)
            = donkBettor agg players unify rest := by
          unfold donkBettor
          rw [hff]
        unfold flopScanGo
        rw [if_neg hp]
        dsimp only
        rw [if_neg (by tauto), hdb]
        have hh := ih (flopTrack r a) htr v
        rw [flopTrack_st] at hh
        exact hh

/-- Shape of the stats returned by the cbet-opportunity block: the elif chain
applies at most one opportunity bump, optionally followed by a responder bump
(branch 1) or a check-after-3-bet bump (branch 3). -/
theorem cbetSection_shape (h : Hand) (unify : String → String)
    (agg : Option String) (is3 : Bool) (fs : FlopScanR) (st' : Stats) (b : Bool)
    (heq : cbetSection h unify agg is3 fs = some (st', b)) :
    st' = fs.st
    ∨ (∃ u, st' = bump fs.st u inc3betOppCbetAfter
        ∨ st' = bump fs.st u incCbetOppMade
        ∨ st' = bump fs.st u inc3betOppCheckAfter
        ∨ st' = bump fs.st u inc3betPotOpp
        ∨ st' = bump fs.st u incCbetOpp)
    ∨ (∃ u w c, st' = bump (bump fs.st u inc3betOppCbetAfter) w (respondCbet c)
        ∨ st' = bump (bump fs.st u incCbetOppMade) w (respondCbet c))
    ∨ (∃ u, st' = bump (bump fs.st u inc3betPotOpp) u incCheckAfter3bet) := by
  unfold cbetSection at heq
  cases agg with
  | none =>
    simp only [Option.some.injEq, Prod.mk.injEq] at heq
    exact Or.inl heq.1.symm
  | some a =>
    dsimp only at heq
    by_cases h1 : a = ""
    · rw [if_pos h1] at heq
      simp only [Option.some.injEq, Prod.mk.injEq] at heq
      exact Or.inl heq.1.symm
    · rw [if_neg h1] at heq
      by_cases h2 : memKeys h.players a = true ∧ unify a ≠ "" ∧
          a ∈ actors h.flop_actions
      · rw [if_pos h2] at heq
        by_cases h3 : fs.first_bettor = some a
        · rw [if_pos h3] at heq
          revert heq
          cases hresp : firstResponder a h.flop_actions with
          | none =>
            intro heq
            dsimp only at heq
            simp only [Option.some.injEq, Prod.mk.injEq] at heq
            rw [← heq.1]
            by_cases hi : is3 = true
            · rw [if_pos hi]
              exact Or.inr (Or.inl ⟨unify a, Or.inl rfl⟩)
            · rw [if_neg hi]
              exact Or.inr (Or.inl ⟨unify a, Or.inr (Or.inl rfl)⟩)
          | some r =>
            intro heq
            dsimp only at heq
            by_cases hmem : memKeys h.players r.player = true
            · rw [if_pos hmem] at heq
              simp only [Option.some.injEq, Prod.mk.injEq] at heq
              rw [← heq.1]
              by_cases hi : is3 = true
              · rw [if_pos hi]
                exact Or.inr (Or.inr (Or.inl
                  ⟨unify a, unify r.player, r.kind == AKind.fold, Or.inl rfl⟩))
              · rw [if_neg hi]
                exact Or.inr (Or.inr (Or.inl
                  ⟨unify a, unify r.player, r.kind == AKind.fold, Or.inr rfl⟩))
            · rw [if_neg hmem] at heq
              simp at heq
        · rw [if_neg h3] at heq
          by_cases h4 : fs.first_actor = some a ∧
              fs.first_type = some AKind.check ∧ is3 = true
          · rw [if_pos h4] at heq
            simp only [Option.some.injEq, Prod.mk.injEq] at heq
            rw [← heq.1]
            exact Or.inr (Or.inl ⟨unify a, Or.inr (Or.inr (Or.inl rfl))⟩)
          · rw [if_neg h4] at heq
            by_cases h5 : fs.first_bettor ≠ some a
            · rw [if_pos h5] at heq
              by_cases h6 : is3 = true
              · rw [if_pos h6] at heq
                by_cases h7 : a ∈ fs.checked
                · rw [if_pos h7] at heq
                  simp only [Option.some.injEq, Prod.mk.injEq] at heq
                  rw [← heq.1]
                  exact Or.inr (Or.inr (Or.inr ⟨unify a, rfl⟩))
                · rw [if_neg h7] at heq
                  simp only [Option.some.injEq, Prod.mk.injEq] at heq
                  rw [← heq.1]
                  exact Or.inr (Or.inl
                    ⟨unify a, Or.inr (Or.inr (Or.inr (Or.inl rfl)))⟩)
              · rw [if_neg h6] at heq
                simp only [Option.some.injEq, Prod.mk.injEq] at heq
                rw [← heq.1]
                exact Or.inr (Or.inl
                  ⟨unify a, Or.inr (Or.inr (Or.inr (Or.inr rfl)))⟩)
            · rw [if_neg h5] at heq
              simp only [Option.some.injEq, Prod.mk.injEq] at heq
              exact Or.inl heq.1.symm
      · rw [if_neg h2] at heq
        simp only [Option.some.injEq, Prod.mk.injEq] at heq
        exact Or.inl heq.1.symm

/-- Consequences of the shape lemma for the continuation-bet opportunity
counters: the block adds at most one opportunity in total, never touches both
opportunity counters, and never credits both `cbet_after_3bet_made` and
`check_after_3bet_made`. -/
theorem cbetSection_cbet_budget (h : Hand) (unify : String → String)
    (agg : Option String) (is3 : Bool) (fs : FlopScanR) (st' : Stats) (b : Bool)
    (heq : cbetSection h unify agg is3 fs = some (st', b)) (v : String) :
    ((st' v).cbet_opportunities + (st' v).threebetpot_opportunities
        ≤ (fs.st v).cbet_opportunities + (fs.st v).threebetpot_opportunities + 1)
    ∧ ((st' v).cbet_opportunities = (fs.st v).cbet_opportunities
        ∨ (st' v).threebetpot_opportunities = (fs.st v).threebetpot_opportunities)
    ∧ ((st' v).cbet_after_3bet_made = (fs.st v).cbet_after_3bet_made
        ∨ (st' v).check_after_3bet_made = (fs.st v).check_after_3bet_made) := by
  rcases cbetSection_shape h unify agg is3 fs st' b heq with
    hs | ⟨u, hs | hs | hs | hs | hs⟩ | ⟨u, w, c, hs | hs⟩ | ⟨u, hs⟩ <;>
    subst hs <;>
    try simp only [bump_apply]
  · simp
  · by_cases hv : v = u <;>
      simp [hv, inc3betOppCbetAfter] <;> omega
  · by_cases hv : v = u <;>
      simp [hv, incCbetOppMade] <;> omega
  · by_cases hv : v = u <;>
      simp [hv, inc3betOppCheckAfter] <;> omega
  · by_cases hv : v = u <;>
      simp [hv, inc3betPotOpp] <;> omega
  · by_cases hv : v = u <;>
      simp [hv, incCbetOpp] <;> omega
  · by_cases hv1 : v = w
    · subst hv1
      by_cases hv2 : v = u
      · subst hv2
        cases c <;> simp [respondCbet, inc3betOppCbetAfter] <;> omega
      · cases c <;> simp [hv2, respondCbet, inc3betOppCbetAfter] <;> omega
    · by_cases hv2 : v = u
      · subst hv2
        cases c <;> simp [hv1, respondCbet, inc3betOppCbetAfter] <;> omega
      · cases c <;> simp [hv1, hv2, respondCbet, inc3betOppCbetAfter] <;> omega
  · by_cases hv1 : v = w
    · subst hv1
      by_cases hv2 : v = u
      · subst hv2
        cases c <;> simp [respondCbet, incCbetOppMade] <;> omega
      · cases c <;> simp [hv2, respondCbet, incCbetOppMade] <;> omega
    · by_cases hv2 : v = u
      · subst hv2
        cases c <;> simp [hv1, respondCbet, incCbetOppMade] <;> omega
      · cases c <;> simp [hv1, hv2, respondCbet, incCbetOppMade] <;> omega
  · by_cases hv : v = u <;>
      simp [hv, inc3betPotOpp, incCheckAfter3bet] <;> omega

/-- The cbet block never lets `folded_to_cbet` overtake `faced_cbet_count`:
the responder bump raises `faced_cbet_count` by one and `folded_to_cbet` by at
most one, and no other bump touches either counter. -/
theorem cbetSection_folded_faced (h : Hand) (unify : String → String)
    (agg : Option String) (is3 : Bool) (fs : FlopScanR) (st' : Stats) (b : Bool)
    (heq : cbetSection h unify agg is3 fs = some (st', b)) (v : String)
    (hle : (fs.st v).folded_to_cbet ≤ (fs.st v).faced_cbet_count) :
    (st' v).folded_to_cbet ≤ (st' v).faced_cbet_count := by
  rcases cbetSection_shape h unify agg is3 fs st' b heq with
    hs | ⟨u, hs | hs | hs | hs | hs⟩ | ⟨u, w, c, hs | hs⟩ | ⟨u, hs⟩ <;>
    subst hs <;>
    try simp only [bump_apply]
  · exact hle
  · by_cases hv : v = u
    · subst hv; simp [inc3betOppCbetAfter]; omega
    · simp [hv]; omega
  · by_cases hv : v = u
    · subst hv; simp [incCbetOppMade]; omega
    · simp [hv]; omega
  · by_cases hv : v = u
    · subst hv; simp [inc3betOppCheckAfter]; omega
    · simp [hv]; omega
  · by_cases hv : v = u
    · subst hv; simp [inc3betPotOpp]; omega
    · simp [hv]; omega
  · by_cases hv : v = u
    · subst hv; simp [incCbetOpp]; omega
    · simp [hv]; omega
  · by_cases hv1 : v = w
    · subst hv1
      by_cases hv2 : v = u
      · subst hv2
        cases c <;> simp [respondCbet, inc3betOppCbetAfter] <;> omega
      · cases c <;> simp [hv2, respondCbet, inc3betOppCbetAfter] <;> omega
    · by_cases hv2 : v = u
      · subst hv2
        cases c <;> simp [hv1, respondCbet, inc3betOppCbetAfter] <;> omega
      · cases c <;> simp [hv1, hv2, respondCbet, inc3betOppCbetAfter] <;> exact hle
  · by_cases hv1 : v = w
    · subst hv1
      by_cases hv2 : v = u
      · subst hv2
        cases c <;> simp [respondCbet, incCbetOppMade] <;> omega
      · cases c <;> simp [hv2, respondCbet, incCbetOppMade] <;> omega
    · by_cases hv2 : v = u
      · subst hv2
        cases c <;> simp [hv1, respondCbet, incCbetOppMade] <;> omega
      · cases c <;> simp [hv1, hv2, respondCbet, incCbetOppMade] <;> exact hle
  · by_cases hv : v = u
    · subst hv; simp [inc3betPotOpp, incCheckAfter3bet]; omega
    · simp [hv]; omega

/-- Decomposition of the per-hand accumulation into its stages. -/
theorem analyzeHandStats_decomp (unify : String → String) (st : Stats)
    (h : Hand) (st' : Stats) (heq : analyzeHandStats unify st h = some st') :
    ∃ st3, analyzePostflopDetailed h unify
        (analyzePreflopDetailed h unify (handsPlayedLoop h unify st)) = some st3
      ∧ st' = showdownLoop h unify st3 := by
  unfold analyzeHandStats at heq
  dsimp only at heq
  cases hpost : analyzePostflopDetailed h unify
      (analyzePreflopDetailed h unify (handsPlayedLoop h unify st)) with
  | none => rw [hpost] at heq; simp at heq
  | some st3 =>
    rw [hpost] at heq
    simp only [Option.some.injEq] at heq
    exact ⟨st3, rfl, heq.symm⟩

/-- `hands_played` counts, per unified name, the raw player keys of the hand
mapping to that name. -/
theorem handsPlayedLoop_hands (h : Hand) (unify : String → String)
    (st : Stats) (v : String) :
    (handsPlayedLoop h unify st v).hands_played
      = (st v).hands_played
        + (h.players.map Prod.fst).countP (fun p => unify p == v) := by
  unfold handsPlayedLoop
  rw [foldl_proj_count (fun c => c.hands_played) _ (fun p v => unify p == v)]
  intro st2 p v2
  rw [bump_inc (fun c => c.hands_played) (fun c => rfl) st2 (unify p) v2]
  congr 1
  by_cases hv : v2 = unify p
  · simp [hv]
  · simp [hv, Ne.symm hv]

/-- The donk-opportunity loop adds one opportunity per eligible player key. -/
theorem donkOppLoop_opps (h : Hand) (unify : String → String)
    (agg : Option String) (st : Stats) (v : String) :
    (donkOppLoop h unify agg st v).donk_bet_opportunities
      = (st v).donk_bet_opportunities + donkOppCount h unify agg v := by
  unfold donkOppLoop donkOppCount
  cases agg with
  | none => simp
  | some a =>
    dsimp only
    by_cases ha : a = ""
    · rw [if_pos ha, if_pos ha]
      simp
    · rw [if_neg ha, if_neg ha]
      rw [foldl_proj_count (fun c => c.donk_bet_opportunities) _
        (fun p v =>
          decide (p ≠ a ∧ p ∈ actors h.flop_actions ∧ unify p ≠ "")
            && (unify p == v))]
      intro st2 p v2
      by_cases hcond : p ≠ a ∧ p ∈ actors h.flop_actions ∧ unify p ≠ ""
      · rw [if_pos hcond,
          bump_inc (fun c => c.donk_bet_opportunities) (fun c => rfl)
            st2 (unify p) v2]
        congr 1
        by_cases hv : v2 = unify p
        · simp [hcond, hv]
        · simp [hcond, hv, Ne.symm hv]
      · rw [if_neg hcond]
        simp [hcond]

/-- An invariant preserved by every step of an `Option`-valued fold is
preserved by the whole fold. -/
theorem foldlM_stats_inv (Q : Stats → Prop) (f : Stats → Hand → Option Stats)
    (hf : ∀ st h st', Q st → f st h = some st' → Q st') :
    ∀ (l : List Hand) (st out : Stats), Q st →
      l.foldlM f st = some out → Q out := by
  intro l
  induction l with
  | nil =>
    intro st out hq heq
    simp only [List.foldlM_nil, Option.pure_def, Option.some.injEq] at heq
    rw [← heq]
    exact hq
  | cons a t ih =>
    intro st out hq heq
    rw [List.foldlM_cons] at heq
    cases hfa : f st a with
    | none =>
      rw [hfa] at heq
      simp at heq
    | some st1 =>
      rw [hfa] at heq
      simp only [Option.bind_eq_bind, Option.some_bind] at heq
      exact ih st1 out (hf st a st1 hq hfa) heq

/-! ## Claim C8: the heads-up filter runs before any accumulation -/

/-- **C8.**  With `exclude_heads_up` enabled, `calculate_advanced_stats`
accumulates exactly what the disabled-flag run accumulates over the hand list
with every 2-player hand dropped (so such hands contribute zero to every
counter of every player), and the disabled-flag run folds the per-hand
analyzer over every input hand in full. -/
theorem heads_up_filter_before_accumulation (unify : String → String)
    (hands : List Hand) :
    calcAccum unify true hands
        = calcAccum unify false
            (hands.filter (fun h => !(h.players.length == 2)))
      ∧ calcAccum unify false hands
        = hands.foldlM (analyzeHandStats unify) zeroStats := by
  constructor
  · unfold calcAccum filteredHands
    congr 1
    simp
  · unfold calcAccum filteredHands
    congr 1
    simp

/-! ## Claim C9: dead-button dealer inference -/

/-- **C9.**  For a hand sealed with no recorded dealer (and non-empty player
tokens, as the log regexes guarantee): if some player differs from both the
recorded small-blind and big-blind players, the inference returns such a
player; if no such player exists, it falls back to the small-blind player.
In particular, players `[P1,P2,P3]` with `small_blind_player = P2` and
`big_blind_player = P3` yield dealer `P1`. -/
theorem dealer_inference (sb bb : Option String) (players : List String)
    (hne : ∀ p ∈ players, p ≠ "") :
    (((∃ p ∈ players, some p ≠ sb ∧ some p ≠ bb) →
        ∃ p, inferDealer none sb bb players = some p ∧ p ∈ players ∧
          some p ≠ sb ∧ some p ≠ bb)
      ∧ ((∀ p ∈ players, some p = sb ∨ some p = bb) → pyTruthy sb = true →
          inferDealer none sb bb players = sb))
    ∧ inferDealer none (some "P2") (some "P3") ["P1", "P2", "P3"]
        = some "P1" := by
  refine ⟨⟨?_, ?_⟩, by decide⟩
  · rintro ⟨q, hq, hq1, hq2⟩
    unfold inferDealer
    cases hfind : players.find? (fun p => !(some p == sb) && !(some p == bb)) with
    | none =>
      exact absurd (List.find?_eq_none.mp hfind q hq)
        (by simp [hq1, hq2])
    | some p =>
      have hmem := List.mem_of_find?_eq_some hfind
      have hcond := List.find?_some hfind
      simp only [Bool.and_eq_true, Bool.not_eq_true', beq_eq_false_iff_ne] at hcond
      have hp : pyTruthy (some p) = true := by
        simp [pyTruthy, hne p hmem]
      refine ⟨p, ?_, hmem, hcond.1, hcond.2⟩
      simp [pyTruthy, hp, hne p hmem]
  · intro hall hsb
    unfold inferDealer
    cases hfind : players.find? (fun p => !(some p == sb) && !(some p == bb)) with
    | none =>
      cases sb with
      | none => simp [pyTruthy] at hsb
      | some s =>
        simp only [pyTruthy, bne_iff_ne, ne_eq, decide_eq_true_eq] at hsb
        simp [hfind, pyTruthy, hsb]
    | some p =>
      have hmem := List.mem_of_find?_eq_some hfind
      have hcond := List.find?_some hfind
      simp only [Bool.and_eq_true, Bool.not_eq_true', beq_eq_false_iff_ne] at hcond
      exact absurd (hall p hmem) (by simp [hcond.1, hcond.2])

/-! ## Claim C10: each street event overwrites the single board field -/

theorem lastStreetCards_some (evs : List Event) :
    ∀ b : List String,
      evs.foldl
        (fun acc e =>
          match e with
          | Event.street_card _ c => some c
          | _ => acc)
        (some b) = some (boardAfter b evs) := by
  induction evs with
  | nil => intro b; rfl
  | cons e evs ih =>
    intro b
    cases e <;> simp [boardAfter, List.foldl_cons, ih]

theorem boardAfter_eq_lastStreetCards (evs : List Event) :
    ∀ b : List String, boardAfter b evs = (lastStreetCards evs).getD b := by
  induction evs with
  | nil => intro b; rfl
  | cons e evs ih =>
    intro b
    cases e with
    | street_card s c =>
      simp only [boardAfter, List.foldl_cons, lastStreetCards]
      rw [lastStreetCards_some evs c]
      simp [boardAfter]
    | hand_start n id d => simpa [boardAfter, lastStreetCards] using ih b
    | hand_end => simpa [boardAfter, lastStreetCards] using ih b
    | player_stacks entries => simpa [boardAfter, lastStreetCards] using ih b
    | act kind player amount => simpa [boardAfter, lastStreetCards] using ih b
    | show_cards player cards => simpa [boardAfter, lastStreetCards] using ih b
    | pot_collected player amount wh =>
      simpa [boardAfter, lastStreetCards] using ih b
    | unknown => simpa [boardAfter, lastStreetCards] using ih b

/-- Running boundary-free events on an open hand keeps the sealed list and the
open status, and leaves the open hand's board equal to the cards of the last
street event seen (or its previous board). -/
theorem runParser_no_boundary (evs : List Event) :
    ∀ (hs : List Hand) (h : Hand) (strt : Street),
      (∀ e ∈ evs, isBoundary e = false) →
      ∃ (h' : Hand) (strt' : Street),
        runParser ⟨hs, some h, strt⟩ evs = ⟨hs, some h', strt'⟩ ∧
          h'.board = boardAfter h.board evs := by
  induction evs with
  | nil => intro hs h strt _; exact ⟨h, strt, rfl, rfl⟩
  | cons e evs ih =>
    intro hs h strt hbf
    have hbf0 : isBoundary e = false := hbf e (List.mem_cons_self e evs)
    have hbfr : ∀ e ∈ evs, isBoundary e = false :=
      fun e he => hbf e (List.mem_cons_of_mem _ he)
    have hstep : ∃ (h₂ : Hand) (strt₂ : Street),
        stepParse ⟨hs, some h, strt⟩ e = ⟨hs, some h₂, strt₂⟩ ∧
          h₂.board
            = (match e with
               | Event.street_card _ c => c
               | _ => h.board) := by
      cases e with
      | hand_start n id d => simp [isBoundary] at hbf0
      | hand_end => simp [isBoundary] at hbf0
      | player_stacks entries => exact ⟨_, _, rfl, rfl⟩
      | street_card s c => exact ⟨_, _, rfl, rfl⟩
      | act kind player amount =>
        refine ⟨_, _, rfl, ?_⟩
        simp only [stepParse]
        split <;> cases strt <;> rfl
      | show_cards player cards =>
        refine ⟨_, _, rfl, ?_⟩
        simp only [stepParse]
        split <;> rfl
      | pot_collected player amount wh => exact ⟨_, _, rfl, rfl⟩
      | unknown => exact ⟨_, _, rfl, rfl⟩
    obtain ⟨h₂, strt₂, hst, hb⟩ := hstep
    obtain ⟨h', strt', hrun, hb'⟩ := ih hs h₂ strt₂ hbfr
    refine ⟨h', strt', ?_, ?_⟩
    · show runParser (stepParse ⟨hs, some h, strt⟩ e) evs = _
      rw [hst, hrun]
    · rw [hb', hb]
      cases e <;> rfl

/-- **C10.**  Every flop/turn/river event overwrites the open hand's single
`board` field with that event's card list; consequently a hand sealed after a
boundary-free event span carries exactly the cards of the last street event of
the span (empty if none), not an accumulated or per-street board.  The spec's
multi-street consequence is also checked on a concrete two-street hand. -/
theorem board_overwritten_by_last_street (pre evs : List Event) (n : Nat)
    (id : String) (d : Option String)
    (hbf : ∀ e ∈ evs, isBoundary e = false) :
    (∃ h : Hand,
        parseHandsWithActions
            (pre ++ Event.hand_start n id d :: (evs ++ [Event.hand_end]))
          = parseHandsWithActions pre ++ [h] ∧
          h.board = (lastStreetCards evs).getD [])
    ∧ (∀ (st : PState) (h : Hand) (s : StreetKind) (cards : List String),
        st.current = some h →
          (stepParse st (Event.street_card s cards)).current
            = some ({ h with board := cards })) := by
  constructor
  · unfold parseHandsWithActions runParser
    rw [List.foldl_append]
    rw [show (Event.hand_start n id d :: (evs ++ [Event.hand_end]))
          = [Event.hand_start n id d] ++ evs ++ [Event.hand_end] from rfl]
    rw [List.foldl_append, List.foldl_append]
    have h1 : List.foldl stepParse (List.foldl stepParse initPState pre)
        [Event.hand_start n id d]
        = ⟨(List.foldl stepParse initPState pre).hands,
           some (emptyHand n id d), Street.preflop⟩ := rfl
    rw [h1]
    obtain ⟨h', strt', hrun, hb⟩ :=
      runParser_no_boundary evs (List.foldl stepParse initPState pre).hands
        (emptyHand n id d) Street.preflop hbf
    rw [show List.foldl stepParse
          (⟨(List.foldl stepParse initPState pre).hands,
            some (emptyHand n id d), Street.preflop⟩ : PState) evs
          = runParser ⟨(List.foldl stepParse initPState pre).hands,
              some (emptyHand n id d), Street.preflop⟩ evs from rfl, hrun]
    refine ⟨h', rfl, ?_⟩
    rw [hb, show (emptyHand n id d).board = [] from rfl,
      boardAfter_eq_lastStreetCards]
  · intro st h s cards hcur
    cases st with
    | mk hs cur strt =>
      cases hcur
      rfl

/-- Witness for C10: a hand seeing flop then turn retains only the turn
event's cards. -/
theorem board_overwritten_by_last_street_witness :
    (∀ e ∈ [Event.player_stacks [("P1", 100), ("P2", 200), ("P3", 300)],
            Event.act AKind.call "P3" 2,
            Event.street_card StreetKind.flop ["A♥", "K♠", "2♦"],
            Event.act AKind.check "P1" 0,
            Event.street_card StreetKind.turn ["7♣"],
            Event.act AKind.bet "P1" 10], isBoundary e = false)
    ∧ ((∃ h : Hand,
        parseHandsWithActions
            ([] ++ Event.hand_start 1 "id1" none ::
              ([Event.player_stacks [("P1", 100), ("P2", 200), ("P3", 300)],
                Event.act AKind.call "P3" 2,
                Event.street_card StreetKind.flop ["A♥", "K♠", "2♦"],
                Event.act AKind.check "P1" 0,
                Event.street_card StreetKind.turn ["7♣"],
                Event.act AKind.bet "P1" 10] ++ [Event.hand_end]))
          = parseHandsWithActions [] ++ [h] ∧
          h.board
            = (lastStreetCards
                [Event.player_stacks [("P1", 100), ("P2", 200), ("P3", 300)],
                 Event.act AKind.call "P3" 2,
                 Event.street_card StreetKind.flop ["A♥", "K♠", "2♦"],
                 Event.act AKind.check "P1" 0,
                 Event.street_card StreetKind.turn ["7♣"],
                 Event.act AKind.bet "P1" 10]).getD [])
    ∧ (∀ (st : PState) (h : Hand) (s : StreetKind) (cards : List String),
        st.current = some h →
          (stepParse st (Event.street_card s cards)).current
            = some ({ h with board := cards }))) :=
  ⟨by decide,
   board_overwritten_by_last_street []
     [Event.player_stacks [("P1", 100), ("P2", 200), ("P3", 300)],
      Event.act AKind.call "P3" 2,
      Event.street_card StreetKind.flop ["A♥", "K♠", "2♦"],
      Event.act AKind.check "P1" 0,
      Event.street_card StreetKind.turn ["7♣"],
      Event.act AKind.bet "P1" 10] 1 "id1" none (by decide)⟩

/-- Witness for C9 at the spec's concrete dead-button hand. -/
theorem dealer_inference_witness :
    (∀ p ∈ ["P1", "P2", "P3"], p ≠ "") ∧
    ((((∃ p ∈ ["P1", "P2", "P3"], some p ≠ some "P2" ∧ some p ≠ some "P3") →
        ∃ p, inferDealer none (some "P2") (some "P3") ["P1", "P2", "P3"]
            = some p ∧
          p ∈ ["P1", "P2", "P3"] ∧ some p ≠ some "P2" ∧ some p ≠ some "P3")
      ∧ ((∀ p ∈ ["P1", "P2", "P3"], some p = some "P2" ∨ some p = some "P3") →
          pyTruthy (some "P2") = true →
          inferDealer none (some "P2") (some "P3") ["P1", "P2", "P3"]
            = some "P2"))
    ∧ inferDealer none (some "P2") (some "P3") ["P1", "P2", "P3"]
        = some "P1") :=
  ⟨by decide, dealer_inference (some "P2") (some "P3") ["P1", "P2", "P3"]
    (by decide)⟩

/-! ## Claim C2: at most one cbet opportunity per hand, branches exclusive -/

/-- C2: over one analyzed hand, every player's `cbet_opportunities` and
`threebetpot_opportunities` together grow by at most one, never both, and the
hand never credits both `cbet_after_3bet_made` and `check_after_3bet_made`. -/
theorem cbet_opportunity_exclusive (h : Hand) (unify : String → String)
    (st st' : Stats) (heq : analyzeHandStats unify st h = some st')
    (v : String) :
    ((st' v).cbet_opportunities + (st' v).threebetpot_opportunities
        ≤ (st v).cbet_opportunities + (st v).threebetpot_opportunities + 1)
    ∧ ((st' v).cbet_opportunities = (st v).cbet_opportunities
        ∨ (st' v).threebetpot_opportunities = (st v).threebetpot_opportunities)
    ∧ ((st' v).cbet_after_3bet_made = (st v).cbet_after_3bet_made
        ∨ (st' v).check_after_3bet_made = (st v).check_after_3bet_made) := by
  obtain ⟨st3, hpost, hshow⟩ := analyzeHandStats_decomp unify st h st' heq
  have h1 : cbetQuad (st' v) = cbetQuad (st3 v) := by
    rw [hshow]
    exact showdownLoop_pres cbetQuad (fun c => rfl) h unify st3 v
  have hpre : cbetQuad (analyzePreflopDetailed h unify
      (handsPlayedLoop h unify st) v) = cbetQuad (st v) := by
    rw [analyzePreflopDetailed_pres cbetQuad (fun c => rfl) (fun c => rfl)
      (fun c => rfl) (fun c => rfl) (fun c => rfl) (fun c => rfl) (fun c => rfl)
      h unify _ v]
    exact handsPlayedLoop_pres cbetQuad (fun c => rfl) h unify st v
  rcases analyzePostflopDetailed_decomp h unify _ st3 hpost with
    ⟨hfe, h3⟩ | ⟨hne, st1, bb, hcb, hrest⟩
  · rw [h3] at h1
    rw [hpre] at h1
    simp only [cbetQuad, Prod.mk.injEq] at h1
    omega
  · have hfs : cbetQuad ((flopScanGo (aggressorOf h) h.players unify
        h.flop_actions (initFlopScan (flopHandsLoop h unify
          (analyzePreflopDetailed h unify (handsPlayedLoop h unify st))))).st v)
        = cbetQuad (st v) := by
      rw [flopScanGo_st_pres cbetQuad (fun c => rfl) (aggressorOf h)
        h.players unify h.flop_actions _ v]
      rw [show (initFlopScan (flopHandsLoop h unify
          (analyzePreflopDetailed h unify (handsPlayedLoop h unify st)))).st
        = flopHandsLoop h unify (analyzePreflopDetailed h unify
            (handsPlayedLoop h unify st)) from rfl]
      rw [flopHandsLoop_pres cbetQuad (fun c => rfl) h unify _ v]
      exact hpre
    have hbudget := cbetSection_cbet_budget h unify (aggressorOf h)
      (is3betPot h) _ st1 bb hcb v
    have hpost2 : cbetQuad (st3 v) = cbetQuad (st1 v) := by
      rcases hrest with ⟨hb, ht, hturn⟩ | ⟨hnb, h3⟩
      · rw [turnSection_pres cbetQuad (fun c => rfl) (fun c => rfl)
          (fun b c => by cases b <;> rfl) (fun c => rfl) h unify
          (aggressorOf h) _ st3 hturn v,
          checkRaiseGo_pres cbetQuad (fun b c => by cases b <;> rfl)
            h.players unify h.flop_actions _ v,
          bwctLoop_pres cbetQuad (fun b c => by cases b <;> rfl) h unify
            (aggressorOf h) _ _ v,
          donkOppLoop_pres cbetQuad (fun c => rfl) h unify (aggressorOf h)
            st1 v]
      · rw [h3,
          checkRaiseGo_pres cbetQuad (fun b c => by cases b <;> rfl)
            h.players unify h.flop_actions _ v,
          bwctLoop_pres cbetQuad (fun b c => by cases b <;> rfl) h unify
            (aggressorOf h) _ _ v,
          donkOppLoop_pres cbetQuad (fun c => rfl) h unify (aggressorOf h)
            st1 v]
    rw [hpost2] at h1
    simp only [cbetQuad, Prod.mk.injEq] at h1 hfs
    obtain ⟨hb1, hb2, hb3⟩ := hbudget
    rcases hb2 with hb2 | hb2 <;> rcases hb3 with hb3 | hb3 <;> omega

/-- Witness for C2 at Scenario B, player P1. -/
theorem cbet_opportunity_exclusive_witness :
    ((stB "P1").cbet_opportunities + (stB "P1").threebetpot_opportunities
        ≤ (zeroStats "P1").cbet_opportunities
          + (zeroStats "P1").threebetpot_opportunities + 1)
    ∧ ((stB "P1").cbet_opportunities = (zeroStats "P1").cbet_opportunities
        ∨ (stB "P1").threebetpot_opportunities
            = (zeroStats "P1").threebetpot_opportunities)
    ∧ ((stB "P1").cbet_after_3bet_made = (zeroStats "P1").cbet_after_3bet_made
        ∨ (stB "P1").check_after_3bet_made
            = (zeroStats "P1").check_after_3bet_made) :=
  cbet_opportunity_exclusive handB idU zeroStats stB rfl "P1"

/-! ## Claim C7: folded-to-cbet vs faced-cbet vs cbet opportunities -/

/-- One analyzed hand keeps `folded_to_cbet ≤ faced_cbet_count` at every
unified name. -/
theorem analyzeHandStats_folded_le (unify : String → String) (st : Stats)
    (h : Hand) (st' : Stats) (heq : analyzeHandStats unify st h = some st')
    (hinv : ∀ w, (st w).folded_to_cbet ≤ (st w).faced_cbet_count)
    (v : String) :
    (st' v).folded_to_cbet ≤ (st' v).faced_cbet_count := by
  obtain ⟨st3, hpost, hshow⟩ := analyzeHandStats_decomp unify st h st' heq
  have h1 : foldedPair (st' v) = foldedPair (st3 v) := by
    rw [hshow]
    exact showdownLoop_pres foldedPair (fun c => rfl) h unify st3 v
  have hpre : ∀ w, foldedPair (analyzePreflopDetailed h unify
      (handsPlayedLoop h unify st) w) = foldedPair (st w) := by
    intro w
    rw [analyzePreflopDetailed_pres foldedPair (fun c => rfl) (fun c => rfl)
      (fun c => rfl) (fun c => rfl) (fun c => rfl) (fun c => rfl) (fun c => rfl)
      h unify _ w]
    exact handsPlayedLoop_pres foldedPair (fun c => rfl) h unify st w
  rcases analyzePostflopDetailed_decomp h unify _ st3 hpost with
    ⟨hfe, h3⟩ | ⟨hne, st1, bb, hcb, hrest⟩
  · rw [h3, hpre v] at h1
    simp only [foldedPair, Prod.mk.injEq] at h1
    have := hinv v
    omega
  · have hfs : foldedPair ((flopScanGo (aggressorOf h) h.players unify
        h.flop_actions (initFlopScan (flopHandsLoop h unify
          (analyzePreflopDetailed h unify (handsPlayedLoop h unify st))))).st v)
        = foldedPair (st v) := by
      rw [flopScanGo_st_pres foldedPair (fun c => rfl) (aggressorOf h)
        h.players unify h.flop_actions _ v]
      rw [show (initFlopScan (flopHandsLoop h unify
          (analyzePreflopDetailed h unify (handsPlayedLoop h unify st)))).st
        = flopHandsLoop h unify (analyzePreflopDetailed h unify
            (handsPlayedLoop h unify st)) from rfl]
      rw [flopHandsLoop_pres foldedPair (fun c => rfl) h unify _ v]
      exact hpre v
    have hle : ((flopScanGo (aggressorOf h) h.players unify
        h.flop_actions (initFlopScan (flopHandsLoop h unify
          (analyzePreflopDetailed h unify (handsPlayedLoop h unify st))))).st
          v).folded_to_cbet
        ≤ ((flopScanGo (aggressorOf h) h.players unify
          h.flop_actions (initFlopScan (flopHandsLoop h unify
            (analyzePreflopDetailed h unify (handsPlayedLoop h unify st))))).st
            v).faced_cbet_count := by
      simp only [foldedPair, Prod.mk.injEq] at hfs
      have := hinv v
      omega
    have hmid := cbetSection_folded_faced h unify (aggressorOf h)
      (is3betPot h) _ st1 bb hcb v hle
    have hpost2 : foldedPair (st3 v) = foldedPair (st1 v) := by
      rcases hrest with ⟨hb, ht, hturn⟩ | ⟨hnb, h3⟩
      · rw [turnSection_pres foldedPair (fun c => rfl) (fun c => rfl)
          (fun b c => by cases b <;> rfl) (fun c => rfl) h unify
          (aggressorOf h) _ st3 hturn v,
          checkRaiseGo_pres foldedPair (fun b c => by cases b <;> rfl)
            h.players unify h.flop_actions _ v,
          bwctLoop_pres foldedPair (fun b c => by cases b <;> rfl) h unify
            (aggressorOf h) _ _ v,
          donkOppLoop_pres foldedPair (fun c => rfl) h unify (aggressorOf h)
            st1 v]
      · rw [h3,
          checkRaiseGo_pres foldedPair (fun b c => by cases b <;> rfl)
            h.players unify h.flop_actions _ v,
          bwctLoop_pres foldedPair (fun b c => by cases b <;> rfl) h unify
            (aggressorOf h) _ _ v,
          donkOppLoop_pres foldedPair (fun c => rfl) h unify (aggressorOf h)
            st1 v]
    rw [hpost2] at h1
    simp only [foldedPair, Prod.mk.injEq] at h1
    omega

/-- Counterexample to C7: after the single Scenario-B hand the responder P2
has `faced_cbet_count = 1` but `cbet_opportunities = 0`, so
`faced_cbet_count ≤ cbet_opportunities` fails. -/
theorem c7_faced_cbet_exceeds_opportunities :
    (calcAccum idU true [handB]).map
        (fun st => ((st "P2").faced_cbet_count, (st "P2").cbet_opportunities))
      = some (1, 0)
    ∧ ¬ (1 : Nat) ≤ 0 :=
  ⟨rfl, by decide⟩

/-- C7 (amended): after `calculate_advanced_stats` processes any list of
hands, every player satisfies `folded_to_cbet ≤ faced_cbet_count`; the second
inequality of the original claim is dropped. -/
theorem folded_to_cbet_le_faced (unify : String → String) (ex : Bool)
    (hands : List Hand) (st : Stats) (heq : calcAccum unify ex hands = some st)
    (v : String) :
    (st v).folded_to_cbet ≤ (st v).faced_cbet_count := by
  unfold calcAccum at heq
  exact foldlM_stats_inv
    (fun s => ∀ w, (s w).folded_to_cbet ≤ (s w).faced_cbet_count)
    (analyzeHandStats unify)
    (fun s hh s' hq he w => analyzeHandStats_folded_le unify s hh s' he hq w)
    (filteredHands ex hands) zeroStats st (fun w => le_refl 0) heq v

/-- Witness for the amended C7 at Scenario B, player P2. -/
theorem folded_to_cbet_le_faced_witness :
    (stC7 "P2").folded_to_cbet ≤ (stC7 "P2").faced_cbet_count :=
  folded_to_cbet_le_faced idU true [handB] stC7 rfl "P2"

/-! ## Claim C4: donk-bet accounting -/

/-- Counterexample to C4: in the donk scenario (preflop raise by P1, flop
`[P2 bets 10, P1 folds]`) the non-aggressor P2 receives TWO donk-bet
opportunities in one hand — one at the break of the first flop loop and one
from the opportunity loop — not exactly one. -/
theorem c4_donk_opportunity_double_count :
    (analyzeHandStats idU zeroStats handDonk).map
        (fun st => ((st "P2").donk_bet_opportunities, (st "P2").donk_bets_made))
      = some (2, 1)
    ∧ (2 : Nat) ≠ 1 :=
  ⟨rfl, by decide⟩

/-- C4 (amended): over the postflop analysis of a hand with flop actions,
`donk_bet_opportunities` grows by one for the credited first bettor (a
non-aggressor first flop bettor who is a known player with truthy unified
name) PLUS one for every non-aggressor player key appearing in the flop
action list with truthy unified name — so the first bettor is double-counted —
while `donk_bets_made` grows only by the first-bettor credit. -/
theorem donk_accounting (h : Hand) (unify : String → String) (st st' : Stats)
    (heq : analyzePostflopDetailed h unify st = some st')
    (hne : h.flop_actions ≠ []) (v : String) :
    ((st' v).donk_bet_opportunities
      = (st v).donk_bet_opportunities
        + (if Option.map unify (donkBettor (aggressorOf h) h.players unify
              h.flop_actions) = some v then 1 else 0)
        + donkOppCount h unify (aggressorOf h) v)
    ∧ ((st' v).donk_bets_made
      = (st v).donk_bets_made
        + (if Option.map unify (donkBettor (aggressorOf h) h.players unify
              h.flop_actions) = some v then 1 else 0)) := by
  rcases analyzePostflopDetailed_decomp h unify st st' heq with
    ⟨hfe, _⟩ | ⟨_, st1, bb, hcb, hrest⟩
  · exact absurd hfe hne
  · have hfh : donkPair (flopHandsLoop h unify st v) = donkPair (st v) :=
      flopHandsLoop_pres donkPair (fun c => rfl) h unify st v
    have hscan := flopScanGo_donk (aggressorOf h) h.players unify
      h.flop_actions (initFlopScan (flopHandsLoop h unify st)) rfl v
    rw [show (initFlopScan (flopHandsLoop h unify st)).st
      = flopHandsLoop h unify st from rfl] at hscan
    have hcb1 : donkPair (st1 v)
        = donkPair ((flopScanGo (aggressorOf h) h.players unify
            h.flop_actions (initFlopScan (flopHandsLoop h unify st))).st v) :=
      cbetSection_pres donkPair (fun c => rfl) (fun c => rfl)
        (fun b c => by cases b <;> rfl) (fun c => rfl) (fun c => rfl)
        (fun c => rfl) (fun c => rfl) h unify (aggressorOf h) (is3betPot h)
        _ st1 bb hcb v
    have hdl1 := donkOppLoop_opps h unify (aggressorOf h) st1 v
    have hdl2 : (donkOppLoop h unify (aggressorOf h) st1 v).donk_bets_made
        = (st1 v).donk_bets_made :=
      donkOppLoop_pres (fun c => c.donk_bets_made) (fun c => rfl) h unify
        (aggressorOf h) st1 v
    have hpost2 : donkPair (st' v)
        = donkPair (donkOppLoop h unify (aggressorOf h) st1 v) := by
      rcases hrest with ⟨hb, ht, hturn⟩ | ⟨hnb, h3⟩
      · rw [turnSection_pres donkPair (fun c => rfl) (fun c => rfl)
          (fun b c => by cases b <;> rfl) (fun c => rfl) h unify
          (aggressorOf h) _ st' hturn v,
          checkRaiseGo_pres donkPair (fun b c => by cases b <;> rfl)
            h.players unify h.flop_actions _ v,
          bwctLoop_pres donkPair (fun b c => by cases b <;> rfl) h unify
            (aggressorOf h) _ _ v]
      · rw [h3,
          checkRaiseGo_pres donkPair (fun b c => by cases b <;> rfl)
            h.players unify h.flop_actions _ v,
          bwctLoop_pres donkPair (fun b c => by cases b <;> rfl) h unify
            (aggressorOf h) _ _ v]
    simp only [donkPair, Prod.mk.injEq] at hfh hcb1 hpost2
    obtain ⟨hs1, hs2⟩ := hscan
    constructor
    · omega
    · omega

/-- Witness for the amended C4 at the donk scenario, player P2: one break
credit plus one loop opportunity, one bet made. -/
theorem donk_accounting_witness :
    (handDonk.flop_actions ≠ [])
    ∧ (((stDonk "P2").donk_bet_opportunities
        = (zeroStats "P2").donk_bet_opportunities
          + (if Option.map idU (donkBettor (aggressorOf handDonk)
                handDonk.players idU handDonk.flop_actions) = some "P2"
             then 1 else 0)
          + donkOppCount handDonk idU (aggressorOf handDonk) "P2")
      ∧ ((stDonk "P2").donk_bets_made
        = (zeroStats "P2").donk_bets_made
          + (if Option.map idU (donkBettor (aggressorOf handDonk)
                handDonk.players idU handDonk.flop_actions) = some "P2"
             then 1 else 0))) :=
  ⟨by decide,
   donk_accounting handDonk idU zeroStats stDonk rfl (by decide) "P2"⟩

/-! ## Claim C3: the no-3-bet continuation-bet branch -/

theorem firstResponderGo_true (agg : String) :
    ∀ acts : List Action,
      firstResponderGo agg true acts
        = acts.find? (fun x => x.player != "" && x.player != agg) := by
  intro acts
  induction acts with
  | nil => rfl
  | cons a rest ih =>
    rw [List.find?_cons]
    by_cases hc : a.player ≠ "" ∧ a.player ≠ agg
    · rw [show firstResponderGo agg true (a :: rest) = some a by
        unfold firstResponderGo; rw [if_pos hc],
        show (a.player != "" && a.player != agg) = true by
          simp [hc.1, hc.2]]
    · rw [show firstResponderGo agg true (a :: rest)
          = firstResponderGo agg true rest by
        unfold firstResponderGo; rw [if_neg hc]; cases rest <;> rfl,
        show (a.player != "" && a.player != agg) = false by
          rw [Decidable.not_and_iff_or_not] at hc
          rcases hc with hc | hc <;> simp_all]
      exact ih

/-- The responder lookup of the source equals its specification-level
description. -/
theorem firstResponder_eq_spec (agg : String) :
    ∀ acts : List Action,
      firstResponder agg acts = firstResponderSpec agg acts := by
  intro acts
  induction acts with
  | nil => rfl
  | cons a rest ih =>
    unfold firstResponder firstResponderSpec
    by_cases hb : (a.player == agg && (a.kind == AKind.bet || a.kind == AKind.raise)) = true
    · rw [show firstResponderGo agg false (a :: rest)
          = firstResponderGo agg true rest by
        unfold firstResponderGo; rw [hb]; cases rest <;> rfl]
      rw [show List.dropWhile
          (fun x =>
            !(x.player == agg && (x.kind == AKind.bet || x.kind == AKind.raise)))
          (a :: rest) = a :: rest by
        rw [List.dropWhile_cons]
        simp [hb]]
      exact firstResponderGo_true agg rest
    · rw [show firstResponderGo agg false (a :: rest)
          = firstResponderGo agg false rest by
        unfold firstResponderGo
        rw [show (a.player == agg && (a.kind == AKind.bet || a.kind == AKind.raise))
            = false by simpa using hb]
        cases rest <;> rfl]
      rw [show List.dropWhile
          (fun x =>
            !(x.player == agg && (x.kind == AKind.bet || x.kind == AKind.raise)))
          (a :: rest)
          = List.dropWhile
            (fun x =>
              !(x.player == agg && (x.kind == AKind.bet || x.kind == AKind.raise)))
            rest by
        rw [List.dropWhile_cons]
        simp [hb]]
      unfold firstResponder firstResponderSpec at ih
      exact ih

/-- C3: in a hand without a 3-bet whose flop aggressor made the first flop
bet, the cbet block credits the aggressor one `cbet_opportunities` and one
`cbets_made` (the `incCbetOppMade` bump), then bumps exactly the first
non-aggressor action strictly after that bet with `faced_cbet_count` —
plus `folded_to_cbet` exactly when that action is a fold (`respondCbet`) —
and reports the cbet as made. -/
theorem cbet_scenarioB (h : Hand) (unify : String → String) (a : String)
    (fs : FlopScanR) (r : Action)
    (h1 : ¬ a = "")
    (h2 : memKeys h.players a = true ∧ unify a ≠ ""
      ∧ a ∈ actors h.flop_actions)
    (h3 : fs.first_bettor = some a)
    (hr : firstResponderSpec a h.flop_actions = some r)
    (hmem : memKeys h.players r.player = true) :
    cbetSection h unify (some a) false fs
      = some (bump (bump fs.st (unify a) incCbetOppMade) (unify r.player)
          (respondCbet (r.kind == AKind.fold)), true) := by
  rw [← firstResponder_eq_spec] at hr
  unfold cbetSection
  dsimp only
  rw [if_neg h1, if_pos h2, if_pos h3, hr]
  dsimp only
  rw [if_pos hmem]
  rfl

/-- Witness for C3 at Scenario B: aggressor P1, flop `[P1 bets 50, P2 folds]`,
responder P2 folding. -/
theorem cbet_scenarioB_witness :
    ((¬ "P1" = "")
      ∧ (memKeys handB.players "P1" = true ∧ idU "P1" ≠ ""
          ∧ "P1" ∈ actors handB.flop_actions)
      ∧ ({ first_actor := some "P1", first_type := some AKind.bet,
           first_bettor := some "P1", checked := [],
           st := zeroStats : FlopScanR }).first_bettor = some "P1"
      ∧ firstResponderSpec "P1" handB.flop_actions
          = some ⟨"P2", AKind.fold, 0⟩
      ∧ memKeys handB.players "P2" = true)
    ∧ cbetSection handB idU (some "P1") false
        { first_actor := some "P1", first_type := some AKind.bet,
          first_bettor := some "P1", checked := [], st := zeroStats }
      = some (bump (bump zeroStats (idU "P1") incCbetOppMade)
          (idU (Action.player ⟨"P2", AKind.fold, 0⟩))
          (respondCbet (Action.kind ⟨"P2", AKind.fold, 0⟩ == AKind.fold)),
          true) :=
  ⟨⟨by decide, by decide, by decide, by decide, by decide⟩,
   cbet_scenarioB handB idU "P1"
     { first_actor := some "P1", first_type := some AKind.bet,
       first_bettor := some "P1", checked := [], st := zeroStats }
     ⟨"P2", AKind.fold, 0⟩ (by decide) (by decide) (by decide) (by decide)
     (by decide)⟩

/-! ## Claim C6: reported pfr and vpip percentages -/

/-- Counter projections untouched by every postflop increment are preserved
by the whole postflop analysis. -/
theorem analyzePostflopDetailed_pres {β : Type} (P : Counters → β)
    (g1 : ∀ c, P (incFlopHands c) = P c)
    (g2 : ∀ c, P (incDonkBoth c) = P c)
    (g3 : ∀ c, P (inc3betOppCbetAfter c) = P c)
    (g4 : ∀ c, P (incCbetOppMade c) = P c)
    (g5 : ∀ b c, P (respondCbet b c) = P c)
    (g6 : ∀ c, P (inc3betOppCheckAfter c) = P c)
    (g7 : ∀ c, P (inc3betPotOpp c) = P c)
    (g8 : ∀ c, P (incCheckAfter3bet c) = P c)
    (g9 : ∀ c, P (incCbetOpp c) = P c)
    (g10 : ∀ c, P (incDonkOpp c) = P c)
    (g11 : ∀ b c, P (incBwct b c) = P c)
    (g12 : ∀ b c, P (incCheckRaise b c) = P c)
    (g13 : ∀ c, P (incTurnHands c) = P c)
    (g14 : ∀ c, P (incTurnOppMade c) = P c)
    (g15 : ∀ b c, P (respondTurnCbet b c) = P c)
    (g16 : ∀ c, P (incTurnOpp c) = P c)
    (h : Hand) (unify : String → String) (st st' : Stats)
    (heq : analyzePostflopDetailed h unify st = some st') (v : String) :
    P (st' v) = P (st v) := by
  rcases analyzePostflopDetailed_decomp h unify st st' heq with
    ⟨_, h3'⟩ | ⟨_, st1, bb, hcb, hrest⟩
  · rw [h3']
  · have hfs : P ((flopScanGo (aggressorOf h) h.players unify h.flop_actions
        (initFlopScan (flopHandsLoop h unify st))).st v) = P (st v) := by
      rw [flopScanGo_st_pres P g2 (aggressorOf h) h.players unify
        h.flop_actions _ v]
      rw [show (initFlopScan (flopHandsLoop h unify st)).st
        = flopHandsLoop h unify st from rfl]
      exact flopHandsLoop_pres P g1 h unify st v
    have hcb1 : P (st1 v) = P (st v) := by
      rw [cbetSection_pres P g3 g4 g5 g6 g7 g8 g9 h unify (aggressorOf h)
        (is3betPot h) _ st1 bb hcb v]
      exact hfs
    rcases hrest with ⟨hb, ht, hturn⟩ | ⟨hnb, h3'⟩
    · rw [turnSection_pres P g13 g14 g15 g16 h unify (aggressorOf h) _ st'
        hturn v,
        checkRaiseGo_pres P g12 h.players unify h.flop_actions _ v,
        bwctLoop_pres P g11 h unify (aggressorOf h) _ _ v,
        donkOppLoop_pres P g10 h unify (aggressorOf h) st1 v]
      exact hcb1
    · rw [h3',
        checkRaiseGo_pres P g12 h.players unify h.flop_actions _ v,
        bwctLoop_pres P g11 h unify (aggressorOf h) _ _ v,
        donkOppLoop_pres P g10 h unify (aggressorOf h) st1 v]
      exact hcb1

/-- Per-hand growth of the pfr / vpip / hands-played counters: each grows by
a `countP` over the hand's player keys, and the three counts are ordered
(the PFR is a VPIP player, and every VPIP player is a player of the hand). -/
theorem analyzeHandStats_pvh (unify : String → String) (st : Stats) (h : Hand)
    (st' : Stats) (heq : analyzeHandStats unify st h = some st') (v : String) :
    ∃ np nv nh, (st' v).pfr_count = (st v).pfr_count + np
      ∧ (st' v).vpip_count = (st v).vpip_count + nv
      ∧ (st' v).hands_played = (st v).hands_played + nh
      ∧ np ≤ nv ∧ nv ≤ nh := by
  obtain ⟨st3, hpost, hshow⟩ := analyzeHandStats_decomp unify st h st' heq
  have hq : pvhTriple (st' v) = pvhTriple (analyzePreflopDetailed h unify
      (handsPlayedLoop h unify st) v) := by
    rw [hshow, showdownLoop_pres pvhTriple (fun c => rfl) h unify st3 v]
    exact analyzePostflopDetailed_pres pvhTriple (fun c => rfl) (fun c => rfl)
      (fun c => rfl) (fun c => rfl) (fun b c => by cases b <;> rfl)
      (fun c => rfl) (fun c => rfl) (fun c => rfl) (fun c => rfl)
      (fun c => rfl) (fun b c => by cases b <;> rfl)
      (fun b c => by cases b <;> rfl) (fun c => rfl) (fun c => rfl)
      (fun b c => by cases b <;> rfl) (fun c => rfl) h unify _ st3 hpost v
  have hpfr := analyzePreflopDetailed_pfr h unify (handsPlayedLoop h unify st) v
  have hvpip := analyzePreflopDetailed_vpip h unify (handsPlayedLoop h unify st) v
  have hhp : (analyzePreflopDetailed h unify (handsPlayedLoop h unify st)
      v).hands_played = (handsPlayedLoop h unify st v).hands_played :=
    analyzePreflopDetailed_pres (fun c => c.hands_played) (fun c => rfl)
      (fun c => rfl) (fun c => rfl) (fun c => rfl) (fun c => rfl)
      (fun c => rfl) (fun c => rfl) h unify _ v
  have hhands := handsPlayedLoop_hands h unify st v
  have hpfr0 : (handsPlayedLoop h unify st v).pfr_count = (st v).pfr_count :=
    handsPlayedLoop_pres (fun c => c.pfr_count) (fun c => rfl) h unify st v
  have hvpip0 : (handsPlayedLoop h unify st v).vpip_count = (st v).vpip_count :=
    handsPlayedLoop_pres (fun c => c.vpip_count) (fun c => rfl) h unify st v
  have hm1 : (h.players.map Prod.fst).countP
      (fun p => (some p == firstLiveRaiser h.preflop_actions)
        && (unify p == v))
      ≤ (h.players.map Prod.fst).countP
        (fun p => decide (p ∈ (preflopScan h.preflop_actions).players_invested)
          && (unify p == v)) := by
    apply List.countP_mono_left
    intro p hp hpred
    simp only [Bool.and_eq_true, beq_iff_eq, decide_eq_true_eq] at hpred ⊢
    refine ⟨?_, hpred.2⟩
    exact (preflopScan_inv h.preflop_actions).2.2.1 p
      (by rw [(preflopScan_inv h.preflop_actions).2.1, ← hpred.1])
  have hm2 : (h.players.map Prod.fst).countP
      (fun p => decide (p ∈ (preflopScan h.preflop_actions).players_invested)
        && (unify p == v))
      ≤ (h.players.map Prod.fst).countP (fun p => unify p == v) := by
    apply List.countP_mono_left
    intro p hp hpred
    simp only [Bool.and_eq_true] at hpred
    exact hpred.2
  refine ⟨(h.players.map Prod.fst).countP
      (fun p => (some p == firstLiveRaiser h.preflop_actions)
        && (unify p == v)),
    (h.players.map Prod.fst).countP
      (fun p => decide (p ∈ (preflopScan h.preflop_actions).players_invested)
        && (unify p == v)),
    (h.players.map Prod.fst).countP (fun p => unify p == v),
    ?_, ?_, ?_, hm1, hm2⟩ <;>
    simp only [pvhTriple, Prod.mk.injEq] at hq <;> omega

/-- The accumulator invariant behind C6: the pfr count never exceeds the vpip
count, which never exceeds the hands played. -/
theorem calcAccum_pvh (unify : String → String) (ex : Bool)
    (hands : List Hand) (st : Stats) (heq : calcAccum unify ex hands = some st)
    (v : String) :
    (st v).pfr_count ≤ (st v).vpip_count
      ∧ (st v).vpip_count ≤ (st v).hands_played := by
  unfold calcAccum at heq
  exact foldlM_stats_inv
    (fun s => ∀ w, (s w).pfr_count ≤ (s w).vpip_count
      ∧ (s w).vpip_count ≤ (s w).hands_played)
    (analyzeHandStats unify)
    (fun s hh s' hq he w => by
      obtain ⟨np, nv, nh, e1, e2, e3, l1, l2⟩ :=
        analyzeHandStats_pvh unify s hh s' he w
      obtain ⟨q1, q2⟩ := hq w
      omega)
    (filteredHands ex hands) zeroStats st (fun w => ⟨le_refl 0, le_refl 0⟩)
    heq v

theorem pct_nonneg (a n : Nat) : 0 ≤ pct a n := by
  unfold pct
  split_ifs with hn
  · positivity
  · exact le_refl 0

theorem pct_le_100 (a n : Nat) (h : a ≤ n) : pct a n ≤ 100 := by
  unfold pct
  split_ifs with hn
  · have hn' : (0:ℚ) < n := by exact_mod_cast hn
    have h1 : (a:ℚ) / n ≤ 1 := by
      rw [div_le_one hn']
      exact_mod_cast h
    calc (a:ℚ) / n * 100 ≤ 1 * 100 :=
          mul_le_mul_of_nonneg_right h1 (by norm_num)
      _ = 100 := by norm_num
  · norm_num

theorem pct_mono (a b n : Nat) (h : a ≤ b) : pct a n ≤ pct b n := by
  unfold pct
  split_ifs with hn
  · have hn' : (0:ℚ) < n := by exact_mod_cast hn
    have h1 : (a:ℚ) / n ≤ (b:ℚ) / n :=
      (div_le_div_right hn').mpr (by exact_mod_cast h)
    exact mul_le_mul_of_nonneg_right h1 (by norm_num)
  · exact le_refl 0

theorem round1_mono {q r : ℚ} (h : q ≤ r) : round1 q ≤ round1 r := by
  unfold round1
  have h1 : round (q * 10) ≤ round (r * 10) := by
    rw [round_eq, round_eq]
    exact Int.floor_mono (by linarith)
  have h2 : ((round (q * 10) : ℤ) : ℚ) ≤ ((round (r * 10) : ℤ) : ℚ) := by
    exact_mod_cast h1
  exact (div_le_div_right (by norm_num : (0:ℚ) < 10)).mpr h2

theorem round1_nonneg {q : ℚ} (h : 0 ≤ q) : 0 ≤ round1 q := by
  have h0 : round1 0 = 0 := by
    unfold round1
    rw [show ((0:ℚ) * 10) = ((0:ℤ):ℚ) by norm_num, round_intCast]
    norm_num
  calc (0:ℚ) = round1 0 := h0.symm
    _ ≤ round1 q := round1_mono h

theorem round1_le_100 {q : ℚ} (h : q ≤ 100) : round1 q ≤ 100 := by
  have h0 : round1 100 = 100 := by
    unfold round1
    rw [show ((100:ℚ) * 10) = ((1000:ℤ):ℚ) by norm_num, round_intCast]
    norm_num
  calc round1 q ≤ round1 100 := round1_mono h
    _ = 100 := h0

/-- Every row of the result table comes from a player with positive
hands-played count. -/
theorem mkRows_mem (names : List String) (st : Stats) (row : Row)
    (hrow : row ∈ mkRows names st) :
    ∃ u, (st u).hands_played > 0 ∧ row = mkRow u (st u) := by
  unfold mkRows at hrow
  rw [List.mem_filterMap] at hrow
  obtain ⟨u, hu, hif⟩ := hrow
  by_cases hp : (st u).hands_played > 0
  · rw [if_pos hp] at hif
    simp only [Option.some.injEq] at hif
    exact ⟨u, hp, hif.symm⟩
  · rw [if_neg hp] at hif
    simp at hif

/-- C6: in every reported row the pfr percentage is at most the vpip
percentage and both lie in [0, 100]. -/
theorem report_pct_bounds (unify : String → String) (ex : Bool)
    (hands : List Hand) (st : Stats) (heq : calcAccum unify ex hands = some st)
    (names : List String) (row : Row) (hrow : row ∈ mkRows names st) :
    row.pfr ≤ row.vpip ∧ 0 ≤ row.vpip ∧ row.vpip ≤ 100
      ∧ 0 ≤ row.pfr ∧ row.pfr ≤ 100 := by
  obtain ⟨u, hp, hrw⟩ := mkRows_mem names st row hrow
  obtain ⟨h1, h2⟩ := calcAccum_pvh unify ex hands st heq u
  rw [hrw]
  unfold mkRow
  dsimp only
  refine ⟨round1_mono (pct_mono _ _ _ h1), round1_nonneg (pct_nonneg _ _),
    round1_le_100 (pct_le_100 _ _ h2), round1_nonneg (pct_nonneg _ _),
    round1_le_100 (pct_le_100 _ _ (le_trans h1 h2))⟩

/-- Witness for C6: the row of P1 after Scenario A. -/
theorem report_pct_bounds_witness :
    (mkRow "P1" (stA "P1") ∈ mkRows ["P1"] stA)
    ∧ ((mkRow "P1" (stA "P1")).pfr ≤ (mkRow "P1" (stA "P1")).vpip
      ∧ 0 ≤ (mkRow "P1" (stA "P1")).vpip ∧ (mkRow "P1" (stA "P1")).vpip ≤ 100
      ∧ 0 ≤ (mkRow "P1" (stA "P1")).pfr ∧ (mkRow "P1" (stA "P1")).pfr ≤ 100) :=
  ⟨by
    rw [show mkRows ["P1"] stA = [mkRow "P1" (stA "P1")] from rfl]
    exact List.mem_singleton_self _,
   report_pct_bounds idU false [handA] stA rfl ["P1"]
     (mkRow "P1" (stA "P1"))
     (by
       rw [show mkRows ["P1"] stA = [mkRow "P1" (stA "P1")] from rfl]
       exact List.mem_singleton_self _)⟩

end PPP
